import Mathlib

/-!
# codeToDoc: the document export pipeline of `src/App.js`

A shallow embedding of the parts of the React component `App` that the export pipeline
consists of: `handleFile` (language detection from the file name), `exportToPdf`
(rasterised capture laid out over A4 pages), `exportToOtherFormat` (plain text, HTML and
Word-compatible HTML) and `handleExport`.

Conventions of the embedding.

* A JavaScript string is a Lean `String`.
* A handler is embedded as the list of calls it issues, in order: calls of the React state
  setters, of `jsPDF`, of `html2canvas`, of `saveAs`. The state changes only through the
  setters, so a handler that issues no `setLanguage` leaves the language as it was. The
  libraries record what they are given; what a library does with a degenerate argument is
  not part of `App.js`.
* Everything a handler reads from the browser is a field of `Env`.
* Lengths in millimetres are exact rationals; `JsNum` adds the three non-finite values of
  JavaScript arithmetic, which a division by zero produces.
* The only loop, `while (heightLeft > 0)`, takes a bound on the number of iterations and
  answers `none` when the bound is exhausted.
-/

namespace CodeToDoc

/-! ## JavaScript values -/

/-- The values a property read such as `languageMap[extension]` can produce. -/
inductive JsValue where
  | undefined
  | str (s : String)
  | function (name : String)
  | object
  deriving DecidableEq, Repr

namespace JsValue

/-- ToBoolean, as applied by `if (v)` and `v ? a : b`. -/
def truthy : JsValue → Bool
  | undefined => false
  | str s => s != ""
  | function _ => true
  | object => true

/-- ToString, as applied by a template literal. -/
def toStr : JsValue → String
  | undefined => "undefined"
  | str s => s
  | function name => "function " ++ name ++ "() \x7b [native code] \x7d"
  | object => "[object Object]"

end JsValue

/-- A JavaScript number: an exact rational, or one of the non-finite values. -/
inductive JsNum where
  | num (q : ℚ)
  | posInf
  | negInf
  | nan
  deriving DecidableEq

namespace JsNum

/-- The quotient `a / b` of two finite numbers. -/
def div (a b : ℚ) : JsNum :=
  if b = 0 then
    (if a = 0 then nan else if 0 < a then posInf else negInf)
  else num (a / b)

/-- The comparison `x > q` against a finite number. -/
def gt : JsNum → ℚ → Bool
  | num x, q => decide (q < x)
  | posInf, _ => true
  | negInf, _ => false
  | nan, _ => false

/-- The difference `x - q` with a finite number. -/
def sub : JsNum → ℚ → JsNum
  | num x, q => num (x - q)
  | posInf, _ => posInf
  | negInf, _ => negInf
  | nan, _ => nan

end JsNum

/-! ## JavaScript string operations -/

/-- The array `s.split(sep)` for a one-character separator, on lists of characters. -/
def splitChars (sep : Char) : List Char → List (List Char)
  | [] => [[]]
  | c :: cs =>
    if c = sep then [] :: splitChars sep cs
    else
      match splitChars sep cs with
      | [] => [[c]]
      | w :: ws => (c :: w) :: ws

/-- The array `s.split(sep)` for a one-character separator. -/
def split (sep : Char) (s : String) : List String :=
  (splitChars sep s.data).map String.mk

/-- The element `a[0]` of an array returned by `split`, which is never empty. -/
def first (a : List String) : String := a.headD ""

/-- The result of `a.pop()` on an array returned by `split`, which is never empty. -/
def pop (a : List String) : String := a.getLastD ""

/-- The string `s.replace(/c/g, r)`: every occurrence of the character `c` becomes `r`
(`r` has no `$`, so it is taken literally). -/
def replaceAllChar (c : Char) (r : String) (s : String) : String :=
  ⟨s.data.flatMap (fun x => if x = c then r.data else [x])⟩

/-- ASCII case folding: `toLowerCase` on strings of ASCII characters. -/
def asciiLower (s : String) : String := ⟨s.data.map Char.toLower⟩

/-- ASCII case folding: `toUpperCase` on strings of ASCII characters. -/
def asciiUpper (s : String) : String := ⟨s.data.map Char.toUpper⟩

/-- Substring test: `m` occurs in `s`. -/
def Occurs (m s : String) : Prop := m.data <:+: s.data

/-! ## The escaping of the raw text (lines 545 and 595) -/

/-- The expression `fileContent.replace(/</g, '&lt;').replace(/>/g, '&gt;')`. -/
def escapeHtml (fileContent : String) : String :=
  replaceAllChar '>' "&gt;" (replaceAllChar '<' "&lt;" fileContent)

/-- The escaping in the words of the specification, for one character. -/
def escCharSpec (c : Char) : List Char :=
  if c = '<' then "&lt;".data else if c = '>' then "&gt;".data else [c]

/-- The escaping in the words of the specification: every `<` becomes `&lt;`, every `>`
becomes `&gt;`, every other character is left unchanged, in one pass. -/
def escSpec (s : String) : String := ⟨s.data.flatMap escCharSpec⟩

/-! ## State, environment and calls -/

/-- The React state of `App` that the export pipeline reads (lines 60-71). -/
structure AppState where
  fileContent : String
  fileName : String
  language : JsValue
  htmlPreview : Option String
  exportFormat : String
  documentTitle : String
  authorName : String

/-- The state of a freshly mounted component (the `useState` initial values). -/
def initialState : AppState :=
  ⟨"", "", .str "javascript", none, "pdf", "", ""⟩

/-- The file handed to `handleFile`: its name, and the text `FileReader` delivers
(`none` when reading fails). -/
structure File where
  name : String
  content : Option String

/-- What the handlers read from the browser. -/
structure Env where
  /-- The function `String.prototype.toLowerCase`. -/
  toLowerCase : String → String
  /-- The function `String.prototype.toUpperCase`. -/
  toUpperCase : String → String
  /-- The string `new Date().toLocaleDateString()`. -/
  date : String
  /-- The `scrollWidth` and `scrollHeight` of `iframe.contentWindow.document.body`;
  `none` when reading it throws. -/
  iframeBody : Option (Nat × Nat)
  /-- Whether `html2canvas` on the temporary iframe, `drawImage` and `toDataURL` complete. -/
  renderCaptureOk : Bool
  /-- The width and height of the canvas `html2canvas(codeRef.current)` resolves to;
  `none` when it rejects. -/
  codeCanvas : Option (Nat × Nat)

/-- The region handed to `html2canvas`. -/
inductive CaptureTarget where
  | tempIframeBody
  | codeRef
  deriving DecidableEq

/-- The calls a handler issues. -/
inductive Call where
  | setLoading (b : Bool)
  | setFile (name : String)
  | setFileName (s : String)
  | setDocumentTitle (s : String)
  | setLanguage (v : JsValue)
  | setFileContent (s : String)
  | setNotification (message severity : String)
  | consoleError (label : String)
  | newJsPDF
  | pdfSetProperties (title author subject creator : String)
  | pdfSetFontSize (n : Nat)
  | pdfText (s : String) (x y : ℚ)
  | pdfLine (x1 y1 x2 y2 : ℚ)
  | pdfAddImage (x y w : ℚ) (h : JsNum)
  | pdfAddPage
  | pdfSave (name : String)
  | appendTempIframe (width height : Nat)
  | removeTempIframe
  | html2canvas (target : CaptureTarget)
  | saveAs (content mimeType name : String)
  deriving DecidableEq

/-- A call that writes a file: `saveAs` or `pdf.save`. -/
def Call.isSave : Call → Bool
  | .saveAs _ _ _ => true
  | .pdfSave _ => true
  | _ => false

/-- A call that rasterises: `html2canvas`. -/
def Call.isRasterize : Call → Bool
  | .html2canvas _ => true
  | _ => false

/-- A call that places the image: `pdf.addImage`. -/
def Call.isAddImage : Call → Bool
  | .pdfAddImage _ _ _ _ => true
  | _ => false

/-- A call of the setter `setLanguage`. -/
def Call.isSetLanguage : Call → Bool
  | .setLanguage _ => true
  | _ => false

/-- A call that starts a page: `pdf.addPage`. -/
def Call.isAddPage : Call → Bool
  | .pdfAddPage => true
  | _ => false

/-- A placement: the page index and the arguments of `pdf.addImage`. -/
structure Placement where
  pageIndex : Nat
  x : ℚ
  y : ℚ
  width : ℚ
  height : JsNum
  deriving DecidableEq

/-- The placements of a list of `jsPDF` calls issued while `page` is the current page. -/
def placementsFrom : Nat → List Call → List Placement
  | _, [] => []
  | page, .pdfAddPage :: cs => placementsFrom (page + 1) cs
  | page, .pdfAddImage x y w h :: cs => ⟨page, x, y, w, h⟩ :: placementsFrom page cs
  | page, _ :: cs => placementsFrom page cs

/-- The placements of the calls made on a new document, whose current page is page 0. -/
def placements (calls : List Call) : List Placement := placementsFrom 0 calls

/-- The number of pages of a new document after the calls: one, plus one per `addPage`. -/
def pageCount (calls : List Call) : Nat := 1 + (calls.filter Call.isAddPage).length

/-! ## `handleFile` (lines 221-274) -/

/-- The object literal `languageMap` (lines 229-254): its own properties. -/
def languageMap : List (String × String) :=
  [("js", "javascript"), ("jsx", "jsx"), ("ts", "typescript"), ("tsx", "tsx"),
   ("py", "python"), ("java", "java"), ("c", "c"), ("cpp", "cpp"), ("cs", "csharp"),
   ("html", "html"), ("css", "css"), ("php", "php"), ("rb", "ruby"), ("go", "go"),
   ("rs", "rust"), ("swift", "swift"), ("kt", "kotlin"), ("sh", "bash"),
   ("json", "json"), ("xml", "xml"), ("yml", "yaml"), ("yaml", "yaml"),
   ("md", "markdown"), ("sql", "sql")]

/-- The properties an object literal inherits from `Object.prototype`. -/
def objectPrototype : List (String × JsValue) :=
  [("constructor", .function "Object"),
   ("__defineGetter__", .function "__defineGetter__"),
   ("__defineSetter__", .function "__defineSetter__"),
   ("hasOwnProperty", .function "hasOwnProperty"),
   ("__lookupGetter__", .function "__lookupGetter__"),
   ("__lookupSetter__", .function "__lookupSetter__"),
   ("isPrototypeOf", .function "isPrototypeOf"),
   ("propertyIsEnumerable", .function "propertyIsEnumerable"),
   ("toString", .function "toString"),
   ("valueOf", .function "valueOf"),
   ("__proto__", .object),
   ("toLocaleString", .function "toLocaleString")]

/-- The property read `languageMap[extension]`: an own property, else an inherited one,
else `undefined`. -/
def languageMapGet (extension : String) : JsValue :=
  match languageMap.lookup extension with
  | some tag => .str tag
  | none =>
    match objectPrototype.lookup extension with
    | some v => v
    | none => .undefined

/-- The expression `file.name.split('.').pop().toLowerCase()` (line 228). -/
def fileExtension (env : Env) (name : String) : String :=
  env.toLowerCase (pop (split '.' name))

/-- The calls of `handleFile(file)`, the `FileReader` callback included. -/
def handleFile (env : Env) (file : File) : List Call :=
  let extension := fileExtension env file.name
  [.setLoading true, .setFile file.name, .setFileName file.name,
   .setDocumentTitle (first (split '.' file.name))] ++
  (if (languageMapGet extension).truthy then [.setLanguage (languageMapGet extension)]
   else []) ++
  (match file.content with
   | some text => [.setFileContent text, .setLoading false]
   | none => [.setNotification "Error reading file" "error", .setLoading false])

/-! ## `exportToOtherFormat` (lines 476-623) -/

/-- The expression ``documentTitle || fileName.split('.')[0]`` (lines 318 and 488). -/
def exportTitle (st : AppState) : String :=
  if st.documentTitle ≠ "" then st.documentTitle else first (split '.' st.fileName)

/-- The expression ``authorName ? `<p>Author: ${authorName}</p>` : ''`` (lines 540, 592). -/
def authorParagraph (authorName : String) : String :=
  if authorName ≠ "" then "<p>Author: " ++ authorName ++ "</p>" else ""

/-- The template `htmlContent`, from its start to the opening of `<title>`. -/
def htmlPart1 : String :=
  "\n" ++
  "            <!DOCTYPE html>\n" ++
  "            <html lang=\"en\">\n" ++
  "            <head>\n" ++
  "              <meta charset=\"UTF-8\">\n" ++
  "              <meta name=\"viewport\" content=\"width=device-width, initial-scale=1.0\">\n" ++
  "              <title>"

/-- The template `htmlContent`, from the closing of `<title>` to the opening of `<h1>`. -/
def htmlPart2 : String :=
  "</title>\n" ++
  "              <style>\n" ++
  "                body \x7b\n" ++
  "                  font-family: Arial, sans-serif;\n" ++
  "                  line-height: 1.6;\n" ++
  "                  max-width: 800px;\n" ++
  "                  margin: 0 auto;\n" ++
  "                  padding: 20px;\n" ++
  "                \x7d\n" ++
  "                .header \x7b\n" ++
  "                  margin-bottom: 20px;\n" ++
  "                \x7d\n" ++
  "                .code-container \x7b\n" ++
  "                  border-radius: 8px;\n" ++
  "                  overflow: hidden;\n" ++
  "                \x7d\n" ++
  "                pre \x7b\n" ++
  "                  margin: 0;\n" ++
  "                  padding: 16px;\n" ++
  "                  overflow: auto;\n" ++
  "                  background-color: #282c34;\n" ++
  "                  color: #abb2bf;\n" ++
  "                  border-radius: 8px;\n" ++
  "                  font-family: 'Courier New', Courier, monospace;\n" ++
  "                \x7d\n" ++
  "                .footer \x7b\n" ++
  "                  margin-top: 20px;\n" ++
  "                  font-size: 0.8em;\n" ++
  "                  color: #666;\n" ++
  "                \x7d\n" ++
  "              </style>\n" ++
  "            </head>\n" ++
  "            <body>\n" ++
  "              <div class=\"header\">\n" ++
  "                <h1>"

/-- The template `htmlContent`, from the closing of `<div class="header">` to the opening
of the code block. -/
def htmlPart6 : String :=
  "</p>\n" ++
  "              </div>\n" ++
  "              <div class=\"code-container\">\n" ++
  "                <pre><code>"

/-- The template `htmlContent`, from the closing of the code block to its end. -/
def htmlPart7 : String :=
  "</code></pre>\n" ++
  "              </div>\n" ++
  "              <div class=\"footer\">\n" ++
  "                <p>Generated by codeToDoc</p>\n" ++
  "              </div>\n" ++
  "            </body>\n" ++
  "            </html>\n" ++
  "          "

/-- The template literal `htmlContent` (lines 499-552). -/
def htmlContent (title authorName date language fileContent : String) : String :=
  htmlPart1 ++ title ++ htmlPart2 ++ title ++
  "</h1>\n                " ++ authorParagraph authorName ++
  "\n                <p>Generated on: " ++ date ++
  "</p>\n                <p>Language: " ++ language ++
  htmlPart6 ++ escapeHtml fileContent ++ htmlPart7

/-- The template `docContent`, from its start to the opening of `<title>`. -/
def docPart1 : String :=
  "\n" ++
  "            <html xmlns:o='urn:schemas-microsoft-com:office:office' \n" ++
  "                  xmlns:w='urn:schemas-microsoft-com:office:word' \n" ++
  "                  xmlns='http://www.w3.org/TR/REC-html40'>\n" ++
  "            <head>\n" ++
  "              <meta charset=\"UTF-8\">\n" ++
  "              <title>"

/-- The template `docContent`, from the closing of `<title>` to the opening of `<h1>`. -/
def docPart2 : String :=
  "</title>\n" ++
  "              <!--[if gte mso 9]>\n" ++
  "              <xml>\n" ++
  "                <w:WordDocument>\n" ++
  "                  <w:View>Print</w:View>\n" ++
  "                  <w:Zoom>100</w:Zoom>\n" ++
  "                </w:WordDocument>\n" ++
  "              </xml>\n" ++
  "              <![endif]-->\n" ++
  "              <style>\n" ++
  "                body \x7b\n" ++
  "                  font-family: 'Calibri', sans-serif;\n" ++
  "                  line-height: 1.5;\n" ++
  "                \x7d\n" ++
  "                .code \x7b\n" ++
  "                  font-family: 'Courier New', monospace;\n" ++
  "                  background-color: #f5f5f5;\n" ++
  "                  padding: 10px;\n" ++
  "                  border: 1px solid #ddd;\n" ++
  "                  white-space: pre-wrap;\n" ++
  "                  word-wrap: break-word;\n" ++
  "                \x7d\n" ++
  "              </style>\n" ++
  "            </head>\n" ++
  "            <body>\n" ++
  "              <h1>"

/-- The template `docContent`, from the closing of the code block to its end. -/
def docPart7 : String :=
  "</div>\n" ++
  "              <p>Generated by codeToDoc</p>\n" ++
  "            </body>\n" ++
  "            </html>\n" ++
  "          "

/-- The template literal `docContent` (lines 560-599). -/
def docContent (title authorName date language fileContent : String) : String :=
  docPart1 ++ title ++ docPart2 ++ title ++
  "</h1>\n              " ++ authorParagraph authorName ++
  "\n              <p>Generated on: " ++ date ++
  "</p>\n              <p>Language: " ++ language ++
  "</p>\n              <div class=\"code\">" ++ escapeHtml fileContent ++ docPart7

/-- The `switch (exportFormat)` of lines 490-606: the calls made, and whether the `switch`
completes (`false`: `Unsupported export format` is thrown). -/
def exportSwitch (env : Env) (st : AppState) (title : String) : List Call × Bool :=
  if st.exportFormat = "txt" then
    ([.saveAs st.fileContent "text/plain;charset=utf-8" (title ++ ".txt")], true)
  else if st.exportFormat = "html" then
    ([.saveAs (htmlContent title st.authorName env.date st.language.toStr st.fileContent)
        "text/html;charset=utf-8" (title ++ ".html")], true)
  else if st.exportFormat = "docx" then
    ([.saveAs (docContent title st.authorName env.date st.language.toStr st.fileContent)
        "application/vnd.ms-word;charset=utf-8" (title ++ ".docx")], true)
  else ([], false)

/-- The calls of `exportToOtherFormat()`. -/
def exportToOtherFormat (env : Env) (st : AppState) : List Call :=
  if st.fileContent = "" then
    [.setNotification "Please upload a file first" "warning"]
  else
    let title := exportTitle st
    let body := exportSwitch env st title
    [.setLoading true] ++ body.1 ++
    (if body.2 then
      [.setNotification
        ("Exported to " ++ env.toUpperCase st.exportFormat ++ " successfully") "success"]
     else
      [.consoleError ("Error exporting to " ++ st.exportFormat ++ ":"),
       .setNotification ("Error exporting to " ++ env.toUpperCase st.exportFormat) "error"]) ++
    [.setLoading false]

/-! ## `exportToPdf` (lines 290-473) -/

/-- The loop `while (heightLeft > 0)` of lines 423-429, entered with the given `heightLeft`
and `page`; `fuel` bounds the number of iterations. -/
def pageLoop (pageHeight imgWidth : ℚ) (imgHeight : JsNum) :
    Nat → JsNum → Nat → Option (List Call)
  | 0, heightLeft, _ => if heightLeft.gt 0 then none else some []
  | fuel + 1, heightLeft, page =>
    if heightLeft.gt 0 then
      let position : ℚ := 10
      (pageLoop pageHeight imgWidth imgHeight fuel (heightLeft.sub pageHeight) (page + 1)).map
        (fun rest =>
          .pdfAddPage :: .pdfAddImage 20 (position - pageHeight * page) imgWidth imgHeight
            :: rest)
    else some []

/-- The page splitting of a rendered-markup capture (lines 402-433) for a canvas of the
given pixel size. -/
def placeRenderedImage (fuel : Nat) (canvasWidth canvasHeight : Nat) : Option (List Call) :=
  let pdfWidth : ℚ := 210
  let pdfHeight : ℚ := 297
  let imgWidth : ℚ := pdfWidth - 40
  let imgHeight := JsNum.div (canvasHeight * imgWidth) canvasWidth
  let topMargin : ℚ := 10
  if imgHeight.gt (pdfHeight - 20) then
    let pageHeight : ℚ := pdfHeight - 20
    let position := topMargin
    (pageLoop pageHeight imgWidth imgHeight fuel (imgHeight.sub pageHeight) 1).map
      (fun rest => .pdfAddImage 20 position imgWidth imgHeight :: rest)
  else
    some [.pdfAddImage 20 topMargin imgWidth imgHeight]

/-- The calls of `m` iterations of the page loop that start with the given `page`. -/
def loopCalls (imgHeight : JsNum) : Nat → Nat → List Call
  | _, 0 => []
  | page, m + 1 =>
    .pdfAddPage :: .pdfAddImage 20 (10 - 277 * page) 170 imgHeight ::
      loopCalls imgHeight (page + 1) m

/-- The placement of a code capture (lines 446-452) for a canvas of the given pixel size. -/
def placeCodeImage (canvasWidth canvasHeight : Nat) : List Call :=
  let imgWidth : ℚ := 170
  let imgHeight := JsNum.div (canvasHeight * imgWidth) canvasWidth
  [.pdfAddImage 20 55 imgWidth imgHeight]

/-- The header block of a code capture (lines 338-354). -/
def pdfHeader (env : Env) (st : AppState) (title author : String) : List Call :=
  [.pdfSetFontSize 20, .pdfText title 20 20] ++
  (if author ≠ "" then [.pdfSetFontSize 12, .pdfText ("Author: " ++ author) 20 30] else []) ++
  [.pdfSetFontSize 10,
   .pdfText ("Generated on: " ++ env.date) 20 40,
   .pdfText ("Language: " ++ st.language.toStr) 20 45,
   .pdfLine 20 50 190 50]

/-- The `try` block of `exportToPdf` (lines 318-462); `body` is the iframe body when
`isHtmlIframe` holds. The result is the calls made and whether the block completes
(`false`: an exception reaches the `catch`). -/
def exportToPdfTry (fuel : Nat) (env : Env) (st : AppState) (body : Option (Nat × Nat)) :
    Option (List Call × Bool) :=
  let title := exportTitle st
  let author := if st.authorName ≠ "" then st.authorName else "Generated by codeToDoc"
  let start : List Call := [.newJsPDF, .pdfSetProperties title author "HTML Document" "codeToDoc"]
  let finish : List Call :=
    [.pdfSave (title ++ ".pdf"), .setNotification "PDF exported successfully" "success"]
  match body with
  | some (fullWidth, fullHeight) =>
    let canvasWidth := fullWidth * 2
    let canvasHeight := fullHeight * 2
    let capture : List Call :=
      [.appendTempIframe fullWidth fullHeight, .html2canvas .tempIframeBody]
    if env.renderCaptureOk then
      (placeRenderedImage fuel canvasWidth canvasHeight).map
        (fun images => (start ++ capture ++ images ++ [.removeTempIframe] ++ finish, true))
    else
      some (start ++ capture ++ [.removeTempIframe], false)
  | none =>
    let header := pdfHeader env st title author
    match env.codeCanvas with
    | some (canvasWidth, canvasHeight) =>
      some (start ++ header ++ [.html2canvas .codeRef] ++
        placeCodeImage canvasWidth canvasHeight ++ finish, true)
    | none => some (start ++ header ++ [.html2canvas .codeRef], false)

/-- The test `htmlPreview && language === 'html'` (line 295). -/
def wantsIframe (st : AppState) : Bool :=
  (match st.htmlPreview with
   | some url => url != ""
   | none => false) && decide (st.language = .str "html")

/-- The calls of `exportToPdf()`; `none` when the page loop exhausts `fuel`. -/
def exportToPdf (fuel : Nat) (env : Env) (st : AppState) : Option (List Call) :=
  let body : Option (Nat × Nat) := if wantsIframe st then env.iframeBody else none
  let access : List Call :=
    if wantsIframe st && env.iframeBody.isNone then
      [.consoleError "Error accessing iframe content:"]
    else []
  if st.fileContent = "" then
    some (access ++ [.setNotification "Please upload a file first" "warning"])
  else
    (exportToPdfTry fuel env st body).map
      (fun r =>
        access ++ [.setLoading true] ++ r.1 ++
        (if r.2 then []
         else [.consoleError "Error exporting to PDF:",
               .setNotification "Error exporting to PDF" "error"]) ++
        [.setLoading false])

/-! ## `handleExport` (lines 626-632) -/

/-- The calls of `handleExport()`. -/
def handleExport (fuel : Nat) (env : Env) (st : AppState) : Option (List Call) :=
  if st.exportFormat = "pdf" then exportToPdf fuel env st
  else some (exportToOtherFormat env st)

/-- An environment for worked examples: ASCII case folding, a 500 x 1500 preview body
(a 1000 x 3000 canvas at scale 2), a 1000 x 400 code canvas. -/
def sampleEnv : Env :=
  ⟨asciiLower, asciiUpper, "1/2/2025", some (500, 1500), true, some (1000, 400)⟩

/-! ## Definitions used to state the properties -/

/-- A call that draws text or a rule on the current page: `pdf.text` or `pdf.line`. -/
def Call.isHeaderDrawing : Call → Bool
  | .pdfText _ _ _ => true
  | .pdfLine _ _ _ _ => true
  | _ => false

/-- The margins in the words of the specification: the placement spans 20 mm to 190 mm
horizontally, and what it draws inside the 210 x 297 mm page lies between 10 mm and 287 mm
vertically. -/
def WithinMargins (p : Placement) : Prop :=
  p.x = 20 ∧ p.x + p.width = 190 ∧
  ∀ h y : ℚ, p.height = .num h → 0 ≤ y → y ≤ 297 → p.y ≤ y → y ≤ p.y + h →
    10 ≤ y ∧ y ≤ 287

/-- The file name stem in the words of the specification: the file name without its
extension, the extension being the last `.` and what follows it; a name without `.` has no
extension. -/
def stemSpec (name : String) : String :=
  if '.' ∈ name.data then
    ⟨((name.data.reverse.dropWhile (fun c => c != '.')).drop 1).reverse⟩
  else name

/-- The decoding of escaped text in the words of the specification, on lists of characters:
every `&lt;` becomes `<` and every `&gt;` becomes `>`. -/
def unescChars : List Char → List Char
  | '&' :: 'l' :: 't' :: ';' :: cs => '<' :: unescChars cs
  | '&' :: 'g' :: 't' :: ';' :: cs => '>' :: unescChars cs
  | c :: cs => c :: unescChars cs
  | [] => []

/-- The decoding of escaped text in the words of the specification. -/
def unescSpec (s : String) : String := ⟨unescChars s.data⟩

/-- The loop `while (heightLeft > 0)` of lines 423-429 once more, recording the state instead
of the calls: the values of `heightLeft` and `page` at each test of the loop condition, the
last being the state on exit. -/
def loopStates (pageHeight : ℚ) : Nat → JsNum → Nat → Option (List (JsNum × Nat))
  | 0, heightLeft, page => if heightLeft.gt 0 then none else some [(heightLeft, page)]
  | fuel + 1, heightLeft, page =>
    if heightLeft.gt 0 then
      (loopStates pageHeight fuel (heightLeft.sub pageHeight) (page + 1)).map
        (fun rest => (heightLeft, page) :: rest)
    else some [(heightLeft, page)]

/-- A character that cannot be part of the text `Author:`: `<`, `>`, a blank or a line
break. The literal parts of the two templates begin and end with such characters. -/
def isDelimiter (c : Char) : Bool := c == '<' || c == '>' || c == ' ' || c == '\n'

/-- Substring test on lists of characters, as a computation. -/
def occursChars (p : List Char) : List Char → Bool
  | [] => p.isEmpty
  | c :: cs => p.isPrefixOf (c :: cs) || occursChars p cs

/-- A literal that does not contain `p` and that begins and ends with a delimiter. -/
def sealedLiteral (p l : List Char) : Bool :=
  !occursChars p l && (l.head?.map isDelimiter).getD false &&
    (l.getLast?.map isDelimiter).getD false

/-! ## Lemmas on strings -/

theorem occurs_of_eq {m s : String} (l r : String) (h : s = l ++ m ++ r) : Occurs m s := by
  subst h
  exact ⟨l.data, r.data, by simp [String.data_append]⟩

theorem escChars_flatMap (l : List Char) :
    (l.flatMap (fun x => if x = '<' then "&lt;".data else [x])).flatMap
      (fun x => if x = '>' then "&gt;".data else [x]) = l.flatMap escCharSpec := by
  induction l with
  | nil => rfl
  | cons c cs ih =>
    simp only [List.flatMap_cons, List.flatMap_append, ih]
    congr 1
    unfold escCharSpec
    by_cases h : c = '<'
    · simp [h]
    · simp [h]

theorem escapeHtml_eq_escSpec (s : String) : escapeHtml s = escSpec s := by
  unfold escapeHtml escSpec replaceAllChar
  exact congrArg String.mk (escChars_flatMap s.data)

theorem escSpec_append (a b : String) : escSpec (a ++ b) = escSpec a ++ escSpec b := by
  apply String.ext
  simp [escSpec, String.data_append, List.flatMap_append]

theorem escCharSpec_clean (c x : Char) (hx : x ∈ escCharSpec c) : x ≠ '<' ∧ x ≠ '>' := by
  unfold escCharSpec at hx
  by_cases h1 : c = '<'
  · rw [if_pos h1] at hx
    have : ∀ y ∈ "&lt;".data, y ≠ '<' ∧ y ≠ '>' := by decide
    exact this x hx
  · rw [if_neg h1] at hx
    by_cases h2 : c = '>'
    · rw [if_pos h2] at hx
      have : ∀ y ∈ "&gt;".data, y ≠ '<' ∧ y ≠ '>' := by decide
      exact this x hx
    · rw [if_neg h2] at hx
      have hxc : x = c := by simpa using hx
      subst hxc
      exact ⟨h1, h2⟩

theorem htmlContent_occurs (title authorName date language fileContent : String) :
    Occurs ("<pre><code>" ++ escapeHtml fileContent ++ "</code></pre>")
      (htmlContent title authorName date language fileContent) := by
  have h6 : htmlPart6 = "</p>\n              </div>\n              <div class=\"code-container\">\n                " ++ "<pre><code>" := rfl
  have h7 : htmlPart7 = "</code></pre>" ++ "\n              </div>\n              <div class=\"footer\">\n                <p>Generated by codeToDoc</p>\n              </div>\n            </body>\n            </html>\n          " := rfl
  apply occurs_of_eq
    (htmlPart1 ++ title ++ htmlPart2 ++ title ++
      "</h1>\n                " ++ authorParagraph authorName ++
      "\n                <p>Generated on: " ++ date ++
      "</p>\n                <p>Language: " ++ language ++
      "</p>\n              </div>\n              <div class=\"code-container\">\n                ")
    "\n              </div>\n              <div class=\"footer\">\n                <p>Generated by codeToDoc</p>\n              </div>\n            </body>\n            </html>\n          "
  unfold htmlContent
  rw [h6, h7]
  simp only [String.append_assoc]

theorem docContent_occurs (title authorName date language fileContent : String) :
    Occurs ("<div class=\"code\">" ++ escapeHtml fileContent ++ "</div>")
      (docContent title authorName date language fileContent) := by
  have h7 : docPart7 = "</div>" ++ "\n              <p>Generated by codeToDoc</p>\n            </body>\n            </html>\n          " := rfl
  have h6 : "</p>\n              <div class=\"code\">" = "</p>\n              " ++ "<div class=\"code\">" := rfl
  apply occurs_of_eq
    (docPart1 ++ title ++ docPart2 ++ title ++
      "</h1>\n              " ++ authorParagraph authorName ++
      "\n              <p>Generated on: " ++ date ++
      "</p>\n              <p>Language: " ++ language ++
      "</p>\n              ")
    "\n              <p>Generated by codeToDoc</p>\n            </body>\n            </html>\n          "
  unfold docContent
  rw [h7, h6]
  simp only [String.append_assoc]

/-! ## The escaping of the raw text -/

/-- C2. The escaped text has no `<` and no `>`. -/
theorem escaped_text_has_no_markup (s : String) :
    '<' ∉ (escapeHtml s).data ∧ '>' ∉ (escapeHtml s).data := by
  rw [escapeHtml_eq_escSpec]
  have key : ∀ x ∈ (escSpec s).data, x ≠ '<' ∧ x ≠ '>' := by
    intro x hx
    simp only [escSpec, List.mem_flatMap] at hx
    obtain ⟨c, _, hc⟩ := hx
    exact escCharSpec_clean c x hc
  exact ⟨fun h => (key _ h).1 rfl, fun h => (key _ h).2 rfl⟩
theorem occurs_trans {a b c : String} (h1 : Occurs a b) (h2 : Occurs b c) : Occurs a c :=
  List.IsInfix.trans h1 h2

theorem exportToOtherFormat_html (env : Env) (st : AppState) (hs : st.fileContent ≠ "")
    (hf : st.exportFormat = "html") :
    exportToOtherFormat env st =
      [.setLoading true,
       .saveAs (htmlContent (exportTitle st) st.authorName env.date st.language.toStr
          st.fileContent) "text/html;charset=utf-8" (exportTitle st ++ ".html"),
       .setNotification ("Exported to " ++ env.toUpperCase "html" ++ " successfully") "success",
       .setLoading false] := by
  simp [exportToOtherFormat, exportSwitch, hs, hf]

theorem exportToOtherFormat_docx (env : Env) (st : AppState) (hs : st.fileContent ≠ "")
    (hf : st.exportFormat = "docx") :
    exportToOtherFormat env st =
      [.setLoading true,
       .saveAs (docContent (exportTitle st) st.authorName env.date st.language.toStr
          st.fileContent) "application/vnd.ms-word;charset=utf-8" (exportTitle st ++ ".docx"),
       .setNotification ("Exported to " ++ env.toUpperCase "docx" ++ " successfully") "success",
       .setLoading false] := by
  simp [exportToOtherFormat, exportSwitch, hs, hf]

theorem exportToOtherFormat_txt (env : Env) (st : AppState) (hs : st.fileContent ≠ "")
    (hf : st.exportFormat = "txt") :
    exportToOtherFormat env st =
      [.setLoading true,
       .saveAs st.fileContent "text/plain;charset=utf-8" (exportTitle st ++ ".txt"),
       .setNotification ("Exported to " ++ env.toUpperCase "txt" ++ " successfully") "success",
       .setLoading false] := by
  simp [exportToOtherFormat, exportSwitch, hs, hf]

/-- C1. For every raw text `s`, the escaping of the source is the one-pass replacement of the
specification; the HTML document contains `<pre><code>`, the escaped text, `</code></pre>`,
and the Word-compatible document contains `<div class="code">`, the escaped text, `</div>`;
for a non-empty `s` these documents are the ones the export saves; a raw text containing
`<script>` appears as `&lt;script&gt;` in both. -/
theorem exports_embed_escaped_text (s : String) :
    escapeHtml s = escSpec s ∧
    (∀ title authorName date language : String,
      Occurs ("<pre><code>" ++ escSpec s ++ "</code></pre>")
        (htmlContent title authorName date language s) ∧
      Occurs ("<div class=\"code\">" ++ escSpec s ++ "</div>")
        (docContent title authorName date language s)) ∧
    (∀ (env : Env) (st : AppState), st.fileContent = s → s ≠ "" →
      (st.exportFormat = "html" →
        (exportToOtherFormat env st).filter Call.isSave =
          [.saveAs (htmlContent (exportTitle st) st.authorName env.date st.language.toStr s)
            "text/html;charset=utf-8" (exportTitle st ++ ".html")]) ∧
      (st.exportFormat = "docx" →
        (exportToOtherFormat env st).filter Call.isSave =
          [.saveAs (docContent (exportTitle st) st.authorName env.date st.language.toStr s)
            "application/vnd.ms-word;charset=utf-8" (exportTitle st ++ ".docx")])) ∧
    (∀ a b : String, s = a ++ "<script>" ++ b →
      escSpec s = escSpec a ++ "&lt;script&gt;" ++ escSpec b ∧
      ∀ title authorName date language : String,
        Occurs "&lt;script&gt;" (htmlContent title authorName date language s) ∧
        Occurs "&lt;script&gt;" (docContent title authorName date language s)) := by
  have hocc : ∀ title authorName date language : String,
      Occurs ("<pre><code>" ++ escSpec s ++ "</code></pre>")
        (htmlContent title authorName date language s) ∧
      Occurs ("<div class=\"code\">" ++ escSpec s ++ "</div>")
        (docContent title authorName date language s) := by
    intro title authorName date language
    rw [← escapeHtml_eq_escSpec]
    exact ⟨htmlContent_occurs _ _ _ _ _, docContent_occurs _ _ _ _ _⟩
  refine ⟨escapeHtml_eq_escSpec s, hocc, ?_, ?_⟩
  · intro env st hst hne
    subst hst
    refine ⟨fun hf => ?_, fun hf => ?_⟩
    · rw [exportToOtherFormat_html env st hne hf]; rfl
    · rw [exportToOtherFormat_docx env st hne hf]; rfl
  · intro a b hab
    have hesc : escSpec s = escSpec a ++ "&lt;script&gt;" ++ escSpec b := by
      rw [hab, escSpec_append, escSpec_append]; rfl
    refine ⟨hesc, fun title authorName date language => ?_⟩
    have hin : ∀ l r : String, Occurs "&lt;script&gt;" (l ++ escSpec s ++ r) := by
      intro l r
      apply occurs_of_eq (l ++ escSpec a) (escSpec b ++ r)
      rw [hesc]
      simp only [String.append_assoc]
    exact ⟨occurs_trans (hin _ _) (hocc title authorName date language).1,
      occurs_trans (hin _ _) (hocc title authorName date language).2⟩

/-- C1, at the raw text `<script>` with an empty title and the default language. -/
theorem exports_embed_escaped_text_witness :
    ("<script>" : String) = "" ++ "<script>" ++ "" ∧
    Occurs "&lt;script&gt;" (htmlContent "" "" "1/2/2025" "javascript" "<script>") ∧
    Occurs "&lt;script&gt;" (docContent "" "" "1/2/2025" "javascript" "<script>") :=
  ⟨rfl, ((exports_embed_escaped_text "<script>").2.2.2 "" "" rfl).2 "" "" "1/2/2025" "javascript"⟩

/-- C7. With a non-empty raw text and the target format `txt`, the export saves exactly one
blob: its content is the raw text verbatim, its MIME type is `text/plain;charset=utf-8`, its
name is the title followed by `.txt`, the title being `documentTitle` when that is set. -/
theorem txt_export_saves_raw_text (fuel : Nat) (env : Env) (st : AppState)
    (hs : st.fileContent ≠ "") (hf : st.exportFormat = "txt") :
    ∃ calls, handleExport fuel env st = some calls ∧
      calls.filter Call.isSave =
        [.saveAs st.fileContent "text/plain;charset=utf-8" (exportTitle st ++ ".txt")] ∧
      (st.documentTitle ≠ "" → exportTitle st = st.documentTitle) := by
  refine ⟨exportToOtherFormat env st, ?_, ?_, ?_⟩
  · simp [handleExport, hf]
  · rw [exportToOtherFormat_txt env st hs hf]; rfl
  · intro ht
    simp [exportTitle, ht]

/-- C7, at the raw text `print('hi')` with the title `script`. -/
theorem txt_export_saves_raw_text_witness :
    ∃ calls, handleExport 0 sampleEnv ⟨"print('hi')", "script.py", .str "python", none, "txt",
        "script", ""⟩ = some calls ∧
      calls.filter Call.isSave =
        [.saveAs "print('hi')" "text/plain;charset=utf-8" "script.txt"] := by
  obtain ⟨calls, h1, h2, _⟩ := txt_export_saves_raw_text 0 sampleEnv
    ⟨"print('hi')", "script.py", .str "python", none, "txt", "script", ""⟩
    (by decide) rfl
  exact ⟨calls, h1, h2⟩

/-- C6. With an empty raw text, whatever the target format, title, author and language, the
export saves no file, rasterises nothing and signals the missing-content warning; so do
`exportToPdf` and `exportToOtherFormat` on their own. -/
theorem empty_content_exports_nothing (fuel : Nat) (env : Env) (st : AppState)
    (hs : st.fileContent = "") :
    (∃ calls, handleExport fuel env st = some calls ∧
      (∀ c ∈ calls, c.isSave = false ∧ c.isRasterize = false) ∧
      Call.setNotification "Please upload a file first" "warning" ∈ calls) ∧
    (∃ calls, exportToPdf fuel env st = some calls ∧
      (∀ c ∈ calls, c.isSave = false ∧ c.isRasterize = false) ∧
      Call.setNotification "Please upload a file first" "warning" ∈ calls) ∧
    exportToOtherFormat env st = [.setNotification "Please upload a file first" "warning"] := by
  have hother : exportToOtherFormat env st =
      [.setNotification "Please upload a file first" "warning"] := by
    simp [exportToOtherFormat, hs]
  have hpdf : ∃ calls, exportToPdf fuel env st = some calls ∧
      (∀ c ∈ calls, c.isSave = false ∧ c.isRasterize = false) ∧
      Call.setNotification "Please upload a file first" "warning" ∈ calls := by
    by_cases hw : (wantsIframe st && env.iframeBody.isNone) = true
    · refine ⟨[.consoleError "Error accessing iframe content:",
        .setNotification "Please upload a file first" "warning"], ?_, ?_, by simp⟩
      · simp [exportToPdf, hs, hw]
      · intro c hc
        simp at hc
        rcases hc with rfl | rfl <;> exact ⟨rfl, rfl⟩
    · refine ⟨[.setNotification "Please upload a file first" "warning"], ?_, ?_, by simp⟩
      · simp only [exportToPdf, hs, hw]
        simp
      · intro c hc
        simp at hc
        subst hc
        exact ⟨rfl, rfl⟩
  refine ⟨?_, hpdf, hother⟩
  by_cases hf : st.exportFormat = "pdf"
  · simpa [handleExport, hf] using hpdf
  · refine ⟨[.setNotification "Please upload a file first" "warning"], ?_, ?_, by simp⟩
    · simp only [handleExport, hf, if_false, hother]
    · intro c hc
      simp at hc
      subst hc
      exact ⟨rfl, rfl⟩

/-- C6, at the freshly mounted component, whose raw text is empty and format is `pdf`. -/
theorem empty_content_exports_nothing_witness :
    initialState.fileContent = "" ∧
    exportToOtherFormat sampleEnv initialState =
      [.setNotification "Please upload a file first" "warning"] :=
  ⟨rfl, (empty_content_exports_nothing 0 sampleEnv initialState rfl).2.2⟩

/-! ## `handleFile` -/

theorem splitChars_of_not_mem (sep : Char) (x : List Char) (hx : sep ∉ x) :
    splitChars sep x = [x] := by
  induction x with
  | nil => rfl
  | cons c cs ih =>
    have hc : c ≠ sep := fun h => hx (by simp [h])
    have hcs : sep ∉ cs := fun h => hx (by simp [h])
    simp [splitChars, hc, ih hcs]

theorem splitChars_append_sep (sep : Char) (p rest : List Char) :
    ∃ w ws, splitChars sep (p ++ sep :: rest) = w :: (ws ++ splitChars sep rest) := by
  induction p with
  | nil => exact ⟨[], [], by simp [splitChars]⟩
  | cons c cs ih =>
    obtain ⟨w, ws, h⟩ := ih
    by_cases hc : c = sep
    · exact ⟨[], w :: ws, by simp [splitChars, hc, ← h]⟩
    · exact ⟨c :: w, ws, by simp [splitChars, hc, h]⟩

theorem pop_split_append (p x : String) (hx : '.' ∉ x.data) :
    pop (split '.' (p ++ "." ++ x)) = x := by
  obtain ⟨w, ws, h⟩ := splitChars_append_sep '.' p.data x.data
  have hd : (p ++ "." ++ x).data = p.data ++ '.' :: x.data := by
    simp [String.data_append]
  unfold pop split
  rw [hd, h, splitChars_of_not_mem '.' x.data hx]
  simp [List.getLastD]

theorem lookup_mem_values {β : Type} (l : List (String × β)) (key : String) (v : β)
    (h : l.lookup key = some v) : v ∈ l.map Prod.snd := by
  induction l with
  | nil => simp [List.lookup] at h
  | cons kv kvs ih =>
    obtain ⟨k, v0⟩ := kv
    by_cases hk : key = k
    · subst hk
      simp [List.lookup] at h
      simp [h]
    · have hb : (key == k) = false := by simpa using hk
      simp only [List.lookup, hb] at h
      simp [ih h]

theorem languageMap_values_truthy (key tag : String) (h : languageMap.lookup key = some tag) :
    (JsValue.str tag).truthy = true := by
  have hall : ∀ v ∈ languageMap.map Prod.snd, (JsValue.str v).truthy = true := by decide
  exact hall tag (lookup_mem_values languageMap key tag h)

theorem handleFile_setLanguage (env : Env) (file : File) :
    (handleFile env file).filter Call.isSetLanguage =
      if (languageMapGet (fileExtension env file.name)).truthy then
        [.setLanguage (languageMapGet (fileExtension env file.name))]
      else [] := by
  unfold handleFile
  cases file.content <;>
    by_cases h : (languageMapGet (fileExtension env file.name)).truthy = true <;>
    simp [h, List.filter_cons, Call.isSetLanguage]

/-- C5. When the lower-cased text after the last `.` of the file name is a key of the table,
`handleFile` selects the value of the table for it: `setLanguage` is called once, with that
tag, whatever stands before the last `.` and whatever the letter case of the extension. -/
theorem recognized_extension_selects_tag (env : Env) (p x tag : String)
    (content : Option String) (hx : '.' ∉ x.data)
    (htag : languageMap.lookup (env.toLowerCase x) = some tag) :
    fileExtension env (p ++ "." ++ x) = env.toLowerCase x ∧
    (handleFile env ⟨p ++ "." ++ x, content⟩).filter Call.isSetLanguage =
      [.setLanguage (.str tag)] := by
  have hext : fileExtension env (p ++ "." ++ x) = env.toLowerCase x := by
    unfold fileExtension
    rw [pop_split_append p x hx]
  refine ⟨hext, ?_⟩
  rw [handleFile_setLanguage]
  have hget : languageMapGet (fileExtension env (p ++ "." ++ x)) = .str tag := by
    simp only [languageMapGet, hext, htag]
  simp only [hget, languageMap_values_truthy _ _ htag, if_true]

/-- C5, at `main.rs` and at `App.JSX`. -/
theorem recognized_extension_selects_tag_witness :
    ('.' ∉ "rs".data ∧
      (handleFile sampleEnv ⟨"main.rs", none⟩).filter Call.isSetLanguage =
        [.setLanguage (.str "rust")]) ∧
    ('.' ∉ "JSX".data ∧
      (handleFile sampleEnv ⟨"App.JSX", none⟩).filter Call.isSetLanguage =
        [.setLanguage (.str "jsx")]) :=
  ⟨⟨by decide,
     (recognized_extension_selects_tag sampleEnv "main" "rs" "rust" none (by decide)
       (by decide)).2⟩,
   ⟨by decide,
     (recognized_extension_selects_tag sampleEnv "App" "JSX" "jsx" none (by decide)
       (by decide)).2⟩⟩

/-- C9. The file name `notes.__proto__`: its extension is not a key of the table, and
`handleFile` calls `setLanguage` with the object the literal inherits under that name; the
same happens for `notes.constructor`. -/
theorem inherited_property_selects_language :
    languageMap.lookup (fileExtension sampleEnv "notes.__proto__") = none ∧
    (handleFile sampleEnv ⟨"notes.__proto__", some ""⟩).filter Call.isSetLanguage =
      [.setLanguage .object] ∧
    languageMap.lookup (fileExtension sampleEnv "notes.constructor") = none ∧
    (handleFile sampleEnv ⟨"notes.constructor", some ""⟩).filter Call.isSetLanguage =
      [.setLanguage (.function "Object")] := by
  decide

/-- C10. The file name `go` has no `.`, and `handleFile` calls `setLanguage` with the tag
`go`: the whole name is taken for the extension. -/
theorem name_without_dot_selects_language :
    '.' ∉ "go".data ∧
    fileExtension sampleEnv "go" = "go" ∧
    (handleFile sampleEnv ⟨"go", some ""⟩).filter Call.isSetLanguage =
      [.setLanguage (.str "go")] := by
  decide
/-! ## The page splitting of a rendered-markup capture -/

theorem pageLoop_eq (H : JsNum) (m : ℕ) :
    ∀ (fuel : ℕ) (q : ℚ) (page : ℕ), m ≤ fuel → q ≤ 277 * m → 277 * (m : ℚ) < q + 277 →
      pageLoop 277 170 H fuel (.num q) page = some (loopCalls H page m) := by
  induction m with
  | zero =>
    intro fuel q page _ h1 _
    have hq : ¬ (0 : ℚ) < q := by
      simp only [Nat.cast_zero, mul_zero] at h1
      exact not_lt.mpr h1
    cases fuel <;> simp [pageLoop, JsNum.gt, hq, loopCalls]
  | succ m ih =>
    intro fuel q page hf h1 h2
    have hm : (0 : ℚ) ≤ m := Nat.cast_nonneg m
    push_cast at h1 h2
    have hq : (0 : ℚ) < q := by linarith
    obtain ⟨f, rfl⟩ : ∃ f, fuel = f + 1 := ⟨fuel - 1, by omega⟩
    have hrec := ih f (q - 277) (page + 1) (by omega) (by linarith) (by linarith)
    simp [pageLoop, JsNum.gt, JsNum.sub, hq, hrec, loopCalls]

theorem placementsFrom_loopCalls (H : JsNum) (m : ℕ) :
    ∀ p : ℕ, placementsFrom p (loopCalls H (p + 1) m) =
      (List.range m).map (fun k => ⟨p + 1 + k, 20, 10 - 277 * ((p + 1 + k : ℕ) : ℚ), 170, H⟩) := by
  induction m with
  | zero => intro p; rfl
  | succ m ih =>
    intro p
    rw [List.range_succ_eq_map]
    simp only [loopCalls, placementsFrom, ih (p + 1), List.map_cons, List.map_map]
    refine congrArg₂ _ rfl (List.map_congr_left fun k _ => ?_)
    simp only [Function.comp]
    have : p + 1 + 1 + k = p + 1 + (k + 1) := by omega
    rw [this]

theorem addPage_loopCalls (H : JsNum) (m : ℕ) :
    ∀ page : ℕ, ((loopCalls H page m).filter Call.isAddPage).length = m := by
  induction m with
  | zero => intro page; rfl
  | succ m ih =>
    intro page
    simp [loopCalls, List.filter_cons, Call.isAddPage, ih (page + 1)]

/-- The calls of the page splitting: `m` is the number of iterations of the loop. -/
theorem placeRenderedImage_eq (pixelWidth pixelHeight : ℕ) (hw : 0 < pixelWidth) :
    ∃ m : ℕ,
      (∀ fuel, pixelHeight ≤ fuel → placeRenderedImage fuel pixelWidth pixelHeight =
        some (.pdfAddImage 20 10 170 (.num ((pixelHeight : ℚ) * 170 / pixelWidth)) ::
          loopCalls (.num ((pixelHeight : ℚ) * 170 / pixelWidth)) 1 m)) ∧
      ((pixelHeight : ℚ) * 170 / pixelWidth ≤ 277 → m = 0) ∧
      (277 < (pixelHeight : ℚ) * 170 / pixelWidth →
        (pixelHeight : ℚ) * 170 / pixelWidth ≤ 277 * (m + 1) ∧
        277 * (m : ℚ) < (pixelHeight : ℚ) * 170 / pixelWidth) := by
  have hw0 : (pixelWidth : ℚ) ≠ 0 := by exact_mod_cast hw.ne'
  have hw1 : (1 : ℚ) ≤ pixelWidth := by exact_mod_cast hw
  have hdiv : JsNum.div ((pixelHeight : ℚ) * 170) pixelWidth =
      .num ((pixelHeight : ℚ) * 170 / pixelWidth) := by
    simp only [JsNum.div, hw0, if_false]
  have e277 : (297 : ℚ) - 20 = 277 := by norm_num
  have e170 : (210 : ℚ) - 40 = 170 := by norm_num
  set h : ℚ := (pixelHeight : ℚ) * 170 / pixelWidth with hh
  by_cases hgt : 277 < h
  · have hpos : 0 ≤ (h - 277) / 277 := by
      apply div_nonneg <;> linarith
    have h1 : h - 277 ≤ 277 * (⌈(h - 277) / 277⌉₊ : ℚ) := by
      have := Nat.le_ceil ((h - 277) / 277)
      rw [div_le_iff₀ (by norm_num)] at this
      linarith
    have h2 : 277 * (⌈(h - 277) / 277⌉₊ : ℚ) < h := by
      have := Nat.ceil_lt_add_one hpos
      rw [div_add_one (by norm_num), lt_div_iff₀ (by norm_num)] at this
      linarith
    refine ⟨⌈(h - 277) / 277⌉₊, ?_, fun hle => absurd hgt (not_lt.mpr hle),
      fun _ => ⟨by linarith, h2⟩⟩
    intro fuel hfuel
    have hle : h ≤ pixelHeight * 170 := by
      rw [hh]
      apply div_le_self _ hw1
      positivity
    have hfuel2 : ⌈(h - 277) / 277⌉₊ ≤ fuel := by
      have hlt : ((⌈(h - 277) / 277⌉₊ : ℕ) : ℚ) < (pixelHeight : ℚ) := by
        have hph : (0 : ℚ) ≤ pixelHeight := Nat.cast_nonneg _
        linarith
      have : ⌈(h - 277) / 277⌉₊ < pixelHeight := by exact_mod_cast hlt
      omega
    have hloop := pageLoop_eq (.num h) ⌈(h - 277) / 277⌉₊ fuel (h - 277) 1 hfuel2 h1
      (by linarith)
    unfold placeRenderedImage
    simp only [e277, e170, hdiv]
    simp [JsNum.gt, JsNum.sub, hgt, hloop]
  · have hle : h ≤ 277 := not_lt.mp hgt
    refine ⟨0, ?_, fun _ => rfl, fun hlt => absurd hlt hgt⟩
    intro fuel _
    unfold placeRenderedImage
    simp only [e277, e170, hdiv]
    simp [JsNum.gt, hgt, loopCalls]

theorem placementsFrom_append_inert (post : List Call)
    (hpost : ∀ c ∈ post, c.isAddImage = false ∧ c.isAddPage = false) :
    ∀ (l : List Call) (p : ℕ), placementsFrom p (l ++ post) = placementsFrom p l := by
  have hnil : ∀ p : ℕ, placementsFrom p post = [] := by
    induction post with
    | nil => intro p; rfl
    | cons c cs ih =>
      intro p
      have hc := hpost c (by simp)
      have hcs := ih (fun d hd => hpost d (by simp [hd]))
      cases c <;> simp_all [placementsFrom, Call.isAddImage, Call.isAddPage]
  intro l
  induction l with
  | nil => intro p; simpa [placementsFrom] using hnil p
  | cons c cs ih =>
    intro p
    cases c <;> simp [placementsFrom, ih]

theorem exportToPdf_rendered (fuel : ℕ) (env : Env) (st : AppState) (fullWidth fullHeight : ℕ)
    (hs : st.fileContent ≠ "") (hi : wantsIframe st = true)
    (hb : env.iframeBody = some (fullWidth, fullHeight)) (hok : env.renderCaptureOk = true) :
    exportToPdf fuel env st =
      (placeRenderedImage fuel (fullWidth * 2) (fullHeight * 2)).map (fun images =>
        [.setLoading true, .newJsPDF,
         .pdfSetProperties (exportTitle st)
           (if st.authorName ≠ "" then st.authorName else "Generated by codeToDoc")
           "HTML Document" "codeToDoc",
         .appendTempIframe fullWidth fullHeight, .html2canvas .tempIframeBody] ++ images ++
        [.removeTempIframe, .pdfSave (exportTitle st ++ ".pdf"),
         .setNotification "PDF exported successfully" "success", .setLoading false]) := by
  simp only [exportToPdf, hs, hi, hb, exportToPdfTry, hok, if_true, if_false]
  cases placeRenderedImage fuel (fullWidth * 2) (fullHeight * 2) <;> simp

/-- The placements and pages of a whole rendered-markup export are those of its page
splitting. -/
theorem exportToPdf_rendered_placements (fuel : ℕ) (env : Env) (st : AppState)
    (fullWidth fullHeight : ℕ) (images : List Call)
    (hs : st.fileContent ≠ "") (hi : wantsIframe st = true)
    (hb : env.iframeBody = some (fullWidth, fullHeight)) (hok : env.renderCaptureOk = true)
    (himg : placeRenderedImage fuel (fullWidth * 2) (fullHeight * 2) = some images) :
    ∃ all, exportToPdf fuel env st = some all ∧ placements all = placements images ∧
      pageCount all = pageCount images := by
  rw [exportToPdf_rendered fuel env st fullWidth fullHeight hs hi hb hok, himg]
  refine ⟨_, rfl, ?_, ?_⟩
  · unfold placements
    rw [placementsFrom_append_inert _ (by
      intro c hc
      simp at hc
      rcases hc with rfl | rfl | rfl | rfl <;> exact ⟨rfl, rfl⟩)]
    simp [placementsFrom]
  · simp [pageCount, List.filter_append, List.filter_cons, Call.isAddPage]

/-- C3. For a bitmap of positive width captured from rendered markup, with
`imgHeight = pixelHeight * 170 / pixelWidth`, the page splitting returns (once the bound on the
iterations is at least `pixelHeight`); the number of its placements is the number of pages; it
is 1 when `imgHeight <= 277`, and otherwise the least `n` with `n * 277 >= imgHeight`; it is 3
when `imgHeight = 831` and 2 for a 1000 x 3000 bitmap; a whole export of rendered markup has
these placements and pages. -/
theorem rendered_markup_page_count (pixelWidth pixelHeight : ℕ) (hw : 0 < pixelWidth) :
    ∃ calls : List Call,
      (∀ fuel, pixelHeight ≤ fuel →
        placeRenderedImage fuel pixelWidth pixelHeight = some calls) ∧
      (placements calls).length = pageCount calls ∧
      ((pixelHeight : ℚ) * 170 / pixelWidth ≤ 277 → pageCount calls = 1) ∧
      (277 < (pixelHeight : ℚ) * 170 / pixelWidth →
        (pixelHeight : ℚ) * 170 / pixelWidth ≤ pageCount calls * 277 ∧
        ∀ n : ℕ, (pixelHeight : ℚ) * 170 / pixelWidth ≤ n * 277 → pageCount calls ≤ n) ∧
      ((pixelHeight : ℚ) * 170 / pixelWidth = 831 → pageCount calls = 3) ∧
      (pixelWidth = 1000 → pixelHeight = 3000 → pageCount calls = 2) ∧
      (∀ (fuel : ℕ) (env : Env) (st : AppState) (fullWidth fullHeight : ℕ),
        st.fileContent ≠ "" → wantsIframe st = true →
        env.iframeBody = some (fullWidth, fullHeight) → env.renderCaptureOk = true →
        pixelWidth = fullWidth * 2 → pixelHeight = fullHeight * 2 → pixelHeight ≤ fuel →
        ∃ all, exportToPdf fuel env st = some all ∧
          (placements all).length = pageCount calls ∧ pageCount all = pageCount calls) := by
  obtain ⟨m, hcalls, hsmall, hbig⟩ := placeRenderedImage_eq pixelWidth pixelHeight hw
  set h : ℚ := (pixelHeight : ℚ) * 170 / pixelWidth with hh
  have hcount : pageCount (.pdfAddImage 20 10 170 (.num h) :: loopCalls (.num h) 1 m) =
      m + 1 := by
    simp [pageCount, List.filter_cons, Call.isAddPage, addPage_loopCalls]
    omega
  have hlen : (placements (.pdfAddImage 20 10 170 (.num h) :: loopCalls (.num h) 1 m)).length =
      m + 1 := by
    simp [placements, placementsFrom, placementsFrom_loopCalls]
  have hleast : 277 < h → ∀ n : ℕ, h ≤ n * 277 → m + 1 ≤ n := by
    intro hgt n hn
    have h2 := (hbig hgt).2
    have : (m : ℚ) < n := by linarith
    have : m < n := by exact_mod_cast this
    omega
  have hupper : 277 < h → h ≤ ((m + 1 : ℕ) : ℚ) * 277 := by
    intro hgt
    have h1 := (hbig hgt).1
    push_cast
    linarith
  refine ⟨_, hcalls, by rw [hlen, hcount], ?_, ?_, ?_, ?_, ?_⟩
  · intro hle
    rw [hcount, hsmall hle]
  · intro hgt
    rw [hcount]
    exact ⟨hupper hgt, hleast hgt⟩
  · intro h831
    rw [hcount]
    have hgt : 277 < h := by rw [h831]; norm_num
    have h1 := hupper hgt
    have h2 := hleast hgt 3 (by rw [h831]; norm_num)
    have h3 : (2 : ℚ) < ((m + 1 : ℕ) : ℚ) := by rw [h831] at h1; linarith
    have h4 : 2 < m + 1 := by exact_mod_cast h3
    omega
  · intro h1000 h3000
    rw [hcount]
    have h510 : h = 510 := by rw [hh, h1000, h3000]; norm_num
    have hgt : 277 < h := by rw [h510]; norm_num
    have h1 := hupper hgt
    have h2 := hleast hgt 2 (by rw [h510]; norm_num)
    have h3 : (1 : ℚ) < ((m + 1 : ℕ) : ℚ) := by rw [h510] at h1; linarith
    have h4 : 1 < m + 1 := by exact_mod_cast h3
    omega
  · intro fuel env st fullWidth fullHeight hs hi hb hok hpw hph hfuel
    have himg := hcalls fuel hfuel
    rw [hpw, hph] at himg
    obtain ⟨all, hall, hp, hc⟩ :=
      exportToPdf_rendered_placements fuel env st fullWidth fullHeight _ hs hi hb hok himg
    exact ⟨all, hall, by rw [hp, hlen, hcount], hc⟩

/-- C3, at the 1000 x 3000 bitmap. -/
theorem rendered_markup_page_count_witness :
    0 < 1000 ∧ ∃ calls : List Call,
      placeRenderedImage 3000 1000 3000 = some calls ∧
      (placements calls).length = 2 ∧ pageCount calls = 2 := by
  obtain ⟨calls, h1, h2, _, _, _, h6, _⟩ := rendered_markup_page_count 1000 3000 (by decide)
  exact ⟨by decide, calls, h1 3000 (le_refl _), by rw [h2, h6 rfl rfl], h6 rfl rfl⟩

theorem placements_page_splitting (H : JsNum) (m : ℕ) :
    placements (.pdfAddImage 20 10 170 H :: loopCalls H 1 m) =
      (List.range (m + 1)).map (fun k => ⟨k, 20, 10 - 277 * (k : ℚ), 170, H⟩) := by
  rw [List.range_succ_eq_map]
  simp only [placements, placementsFrom, placementsFrom_loopCalls, List.map_cons, List.map_map]
  refine congrArg₂ _ (by simp) (List.map_congr_left fun k _ => ?_)
  simp only [Function.comp]
  have : 0 + 1 + k = k + 1 := by omega
  rw [this]

/-- C4. For a bitmap of positive width captured from rendered markup, the placement on page
`k`, for each `k` below the number of pages, is the full image, 170 mm wide and `imgHeight`
high, at x = 20 mm and y = 10 - 277 * k mm: the single-page case uses offset 10, and each
offset is 277 mm below the one before; a whole export of rendered markup has these
placements. -/
theorem rendered_markup_placements (pixelWidth pixelHeight : ℕ) (hw : 0 < pixelWidth) :
    ∃ calls : List Call,
      (∀ fuel, pixelHeight ≤ fuel →
        placeRenderedImage fuel pixelWidth pixelHeight = some calls) ∧
      placements calls = (List.range (pageCount calls)).map (fun k =>
        ⟨k, 20, 10 - 277 * (k : ℚ), 170, .num ((pixelHeight : ℚ) * 170 / pixelWidth)⟩) ∧
      ((pixelHeight : ℚ) * 170 / pixelWidth ≤ 277 → placements calls =
        [⟨0, 20, 10, 170, .num ((pixelHeight : ℚ) * 170 / pixelWidth)⟩]) ∧
      (∀ (k : ℕ) (a b : Placement), (placements calls)[k]? = some a →
        (placements calls)[k + 1]? = some b →
        b.pageIndex = a.pageIndex + 1 ∧ b.y = a.y - 277 ∧ b.x = a.x ∧
        b.width = a.width ∧ b.height = a.height) ∧
      (∀ (fuel : ℕ) (env : Env) (st : AppState) (fullWidth fullHeight : ℕ),
        st.fileContent ≠ "" → wantsIframe st = true →
        env.iframeBody = some (fullWidth, fullHeight) → env.renderCaptureOk = true →
        pixelWidth = fullWidth * 2 → pixelHeight = fullHeight * 2 → pixelHeight ≤ fuel →
        ∃ all, exportToPdf fuel env st = some all ∧ placements all = placements calls) := by
  obtain ⟨m, hcalls, hsmall, _⟩ := placeRenderedImage_eq pixelWidth pixelHeight hw
  set h : ℚ := (pixelHeight : ℚ) * 170 / pixelWidth with hh
  have hcount : pageCount (.pdfAddImage 20 10 170 (.num h) :: loopCalls (.num h) 1 m) =
      m + 1 := by
    simp [pageCount, List.filter_cons, Call.isAddPage, addPage_loopCalls]
    omega
  have hpl := placements_page_splitting (.num h) m
  refine ⟨_, hcalls, by rw [hcount, hpl], ?_, ?_, ?_⟩
  · intro hle
    rw [hpl, hsmall hle]
    simp [List.range_succ]
  · intro k a b ha hb
    rw [hpl] at ha hb
    simp only [List.getElem?_map, List.getElem?_range, Option.map_eq_some'] at ha hb
    obtain ⟨i, hi, rfl⟩ := ha
    obtain ⟨j, hj, rfl⟩ := hb
    obtain ⟨_, hik⟩ := List.getElem?_eq_some.mp hi
    obtain ⟨_, hjk⟩ := List.getElem?_eq_some.mp hj
    rw [List.getElem_range] at hik hjk
    subst hik hjk
    refine ⟨rfl, ?_, rfl, rfl, rfl⟩
    show (10 : ℚ) - 277 * ((k + 1 : ℕ) : ℚ) = 10 - 277 * (k : ℚ) - 277
    push_cast
    ring
  · intro fuel env st fullWidth fullHeight hs hi hb hok hpw hph hfuel
    have himg := hcalls fuel hfuel
    rw [hpw, hph] at himg
    obtain ⟨all, hall, hp, _⟩ :=
      exportToPdf_rendered_placements fuel env st fullWidth fullHeight _ hs hi hb hok himg
    exact ⟨all, hall, hp⟩

/-- C4, at the 1000 x 3000 bitmap. -/
theorem rendered_markup_placements_witness :
    0 < 1000 ∧ ∃ calls : List Call,
      placeRenderedImage 3000 1000 3000 = some calls ∧
      placements calls = (List.range (pageCount calls)).map (fun k =>
        ⟨k, 20, 10 - 277 * (k : ℚ), 170, .num ((3000 : ℕ) * 170 / (1000 : ℕ))⟩) := by
  obtain ⟨calls, h1, h2, _⟩ := rendered_markup_placements 1000 3000 (by decide)
  exact ⟨by decide, calls, h1 3000 (le_refl _), h2⟩

/-- C8, as stated, fails for a code capture whose canvas is 0 x 100 pixels: the page
splitting raises no error; the quotient `canvas.height * imgWidth / canvas.width` is
`Infinity`, and the step issues `addImage` with that height. -/
theorem zero_width_bitmap_gets_a_placement :
    JsNum.div (((100 : ℕ) : ℚ) * 170) ((0 : ℕ) : ℚ) = .posInf ∧
    placeCodeImage 0 100 = [.pdfAddImage 20 55 170 .posInf] ∧
    (placeCodeImage 0 100).filter Call.isAddImage ≠ [] := by
  have h1 : placeCodeImage 0 100 = [.pdfAddImage 20 55 170 .posInf] := by
    simp [placeCodeImage, JsNum.div]
  refine ⟨by simp [JsNum.div], h1, ?_⟩
  rw [h1]
  simp [List.filter_cons, Call.isAddImage]

/-- C8, amended. A bitmap of width 0 that reaches the page splitting meets no check of its
dimensions. The quotient `canvas.height * imgWidth / canvas.width` is `NaN` for the height 0
and `Infinity` otherwise. A code capture issues its one `addImage`, at (20, 55), with that
height. A rendered-markup capture of 0 x 0 pixels issues one `addImage`, at (20, 10), with
`NaN`; one of a positive height passes the test `imgHeight > 277` of the multi-page branch. -/
theorem zero_width_bitmap_has_no_check (pixelHeight : ℕ) :
    JsNum.div ((pixelHeight : ℚ) * 170) ((0 : ℕ) : ℚ) =
      (if pixelHeight = 0 then JsNum.nan else JsNum.posInf) ∧
    placeCodeImage 0 pixelHeight =
      [.pdfAddImage 20 55 170 (if pixelHeight = 0 then JsNum.nan else JsNum.posInf)] ∧
    (∀ fuel, placeRenderedImage fuel 0 0 = some [.pdfAddImage 20 10 170 .nan]) ∧
    (JsNum.div ((pixelHeight : ℚ) * (210 - 40)) ((0 : ℕ) : ℚ)).gt (297 - 20) =
      decide (0 < pixelHeight) := by
  have hdiv : JsNum.div ((pixelHeight : ℚ) * 170) ((0 : ℕ) : ℚ) =
      (if pixelHeight = 0 then JsNum.nan else JsNum.posInf) := by
    by_cases h : pixelHeight = 0
    · simp [JsNum.div, h]
    · have hpos : (0 : ℚ) < pixelHeight := by
        exact_mod_cast Nat.pos_of_ne_zero h
      simp [JsNum.div, h, hpos]
  have e170 : (210 : ℚ) - 40 = 170 := by norm_num
  refine ⟨hdiv, ?_, ?_, ?_⟩
  · simp only [placeCodeImage, hdiv]
  · intro fuel
    simp [placeRenderedImage, JsNum.div, JsNum.gt, e170]
  · rw [e170, hdiv]
    by_cases h : pixelHeight = 0
    · simp [h, JsNum.gt]
    · simp [h, JsNum.gt, Nat.pos_of_ne_zero h]

theorem placeRenderedImage_sample (fuel : ℕ) (hfuel : 3000 ≤ fuel) :
    placeRenderedImage fuel 1000 3000 = some
      [.pdfAddImage 20 10 170 (.num 510), .pdfAddPage, .pdfAddImage 20 (-267) 170 (.num 510)] := by
  obtain ⟨m, hm, _, hbig⟩ := placeRenderedImage_eq 1000 3000 (by decide)
  have h510 : ((3000 : ℕ) : ℚ) * 170 / ((1000 : ℕ) : ℚ) = 510 := by norm_num
  rw [h510] at hm hbig
  obtain ⟨h1, h2⟩ := hbig (by norm_num)
  have hm1 : m = 1 := by
    have h3 : (0 : ℚ) < m := by linarith
    have h4 : (m : ℚ) < 2 := by linarith
    have h5 : 0 < m := by exact_mod_cast h3
    have h6 : m < 2 := by exact_mod_cast h4
    omega
  rw [hm fuel hfuel, hm1]
  simp only [loopCalls]
  norm_num

/-! ## The title, the formats and the capture paths -/

theorem exportToPdf_code (fuel : ℕ) (env : Env) (st : AppState) (w h : ℕ)
    (hs : st.fileContent ≠ "") (hi : wantsIframe st = false)
    (hc : env.codeCanvas = some (w, h)) :
    exportToPdf fuel env st = some
      ([.setLoading true, .newJsPDF,
        .pdfSetProperties (exportTitle st)
          (if st.authorName ≠ "" then st.authorName else "Generated by codeToDoc")
          "HTML Document" "codeToDoc"] ++
       pdfHeader env st (exportTitle st)
         (if st.authorName ≠ "" then st.authorName else "Generated by codeToDoc") ++
       [.html2canvas .codeRef] ++ placeCodeImage w h ++
       [.pdfSave (exportTitle st ++ ".pdf"),
        .setNotification "PDF exported successfully" "success", .setLoading false]) := by
  simp [exportToPdf, exportToPdfTry, hs, hi, hc]

/-- C11. The file name `archive.tar.gz` with an empty `documentTitle`: the stem of the
specification is `archive.tar`, the title of both exports is `archive`, the text before the
first `.`; `handleFile` presets `documentTitle` to the same text. -/
theorem title_is_text_before_first_dot :
    stemSpec "archive.tar.gz" = "archive.tar" ∧
    exportTitle ⟨"x = 1", "archive.tar.gz", .str "python", none, "txt", "", ""⟩ = "archive" ∧
    (exportToOtherFormat sampleEnv
        ⟨"x = 1", "archive.tar.gz", .str "python", none, "txt", "", ""⟩).filter Call.isSave =
      [.saveAs "x = 1" "text/plain;charset=utf-8" "archive.txt"] ∧
    (exportToPdf 0 sampleEnv
        ⟨"x = 1", "archive.tar.gz", .str "python", none, "pdf", "", ""⟩).map
      (fun calls => calls.filter Call.isSave) = some [.pdfSave "archive.pdf"] ∧
    Call.setDocumentTitle "archive" ∈ handleFile sampleEnv ⟨"archive.tar.gz", some "x = 1"⟩ := by
  refine ⟨by decide, by decide, ?_, ?_, by decide⟩
  · rw [exportToOtherFormat_txt _ _ (by decide) rfl]
    have : exportTitle ⟨"x = 1", "archive.tar.gz", .str "python", none, "txt", "", ""⟩ =
        "archive" := by decide
    rw [this]
    rfl
  · rw [exportToPdf_code 0 sampleEnv _ 1000 400 (by decide) (by decide) rfl]
    have : exportTitle ⟨"x = 1", "archive.tar.gz", .str "python", none, "pdf", "", ""⟩ =
        "archive" := by decide
    rw [this]
    simp [pdfHeader, placeCodeImage, List.filter_cons, Call.isSave]

/-- C12. With a non-empty raw text: for the formats `txt`, `html` and `docx` the export saves
exactly one file; for a format other than `pdf`, `txt`, `html` and `docx` the `switch` throws,
the `catch` turns the error into an error notification, and no file is saved. -/
theorem formats_save_one_file_or_none (fuel : ℕ) (env : Env) (st : AppState)
    (hs : st.fileContent ≠ "") :
    ((st.exportFormat = "txt" ∨ st.exportFormat = "html" ∨ st.exportFormat = "docx") →
      ∃ calls content mimeType name, handleExport fuel env st = some calls ∧
        calls.filter Call.isSave = [.saveAs content mimeType name]) ∧
    (st.exportFormat ≠ "pdf" → st.exportFormat ≠ "txt" → st.exportFormat ≠ "html" →
      st.exportFormat ≠ "docx" →
      exportSwitch env st (exportTitle st) = ([], false) ∧
      handleExport fuel env st = some
        [.setLoading true,
         .consoleError ("Error exporting to " ++ st.exportFormat ++ ":"),
         .setNotification ("Error exporting to " ++ env.toUpperCase st.exportFormat) "error",
         .setLoading false] ∧
      ∀ calls, handleExport fuel env st = some calls → ∀ c ∈ calls, c.isSave = false) := by
  constructor
  · rintro (hf | hf | hf)
    · refine ⟨exportToOtherFormat env st, st.fileContent, "text/plain;charset=utf-8",
        exportTitle st ++ ".txt", by simp [handleExport, hf], ?_⟩
      rw [exportToOtherFormat_txt env st hs hf]; rfl
    · refine ⟨exportToOtherFormat env st,
        htmlContent (exportTitle st) st.authorName env.date st.language.toStr st.fileContent,
        "text/html;charset=utf-8", exportTitle st ++ ".html", by simp [handleExport, hf], ?_⟩
      rw [exportToOtherFormat_html env st hs hf]; rfl
    · refine ⟨exportToOtherFormat env st,
        docContent (exportTitle st) st.authorName env.date st.language.toStr st.fileContent,
        "application/vnd.ms-word;charset=utf-8", exportTitle st ++ ".docx",
        by simp [handleExport, hf], ?_⟩
      rw [exportToOtherFormat_docx env st hs hf]; rfl
  · intro h1 h2 h3 h4
    have hsw : exportSwitch env st (exportTitle st) = ([], false) := by
      simp [exportSwitch, h2, h3, h4]
    have hex : handleExport fuel env st = some
        [.setLoading true,
         .consoleError ("Error exporting to " ++ st.exportFormat ++ ":"),
         .setNotification ("Error exporting to " ++ env.toUpperCase st.exportFormat) "error",
         .setLoading false] := by
      simp [handleExport, h1, exportToOtherFormat, hs, hsw]
    refine ⟨hsw, hex, ?_⟩
    intro calls hcalls c hc
    rw [hex] at hcalls
    cases hcalls
    simp at hc
    rcases hc with rfl | rfl | rfl | rfl <;> rfl

/-- C12, at the raw text `x = 1` with the format `rtf`. -/
theorem formats_save_one_file_or_none_witness :
    ("x = 1" : String) ≠ "" ∧
    handleExport 0 sampleEnv ⟨"x = 1", "a.py", .str "python", none, "rtf", "a", ""⟩ = some
      [.setLoading true, .consoleError "Error exporting to rtf:",
       .setNotification "Error exporting to RTF" "error", .setLoading false] := by
  refine ⟨by decide, ?_⟩
  have h := ((formats_save_one_file_or_none 0 sampleEnv
    ⟨"x = 1", "a.py", .str "python", none, "rtf", "a", ""⟩ (by decide)).2
    (by decide) (by decide) (by decide) (by decide)).2.1
  rw [h]
  simp only [Option.some.injEq]
  decide

/-- C14. A code capture is placed by one call, `addImage` at (20, 55), whatever its height,
and no page is added. For a 1000 x 3000 canvas the image is 510 mm high, more than the 242 mm
of the page below 55 mm: the export has one placement and one page, where the page splitting
of the rendered-markup branch makes two of each for the same bitmap. -/
theorem code_capture_is_placed_once :
    (∀ w h : ℕ, placeCodeImage w h =
      [.pdfAddImage 20 55 170 (JsNum.div ((h : ℚ) * 170) w)]) ∧
    (∀ fuel : ℕ,
      (exportToPdf fuel ⟨asciiLower, asciiUpper, "1/2/2025", none, true, some (1000, 3000)⟩
        ⟨"x = 1", "a.py", .str "python", none, "pdf", "a", ""⟩).map
      (fun calls => (placements calls, pageCount calls)) =
      some ([⟨0, 20, 55, 170, .num 510⟩], 1)) ∧
    (297 : ℚ) - 55 < 510 ∧
    (placeRenderedImage 3000 1000 3000).map (fun calls => pageCount calls) = some 2 := by
  refine ⟨fun w h => rfl, ?_, by norm_num, ?_⟩
  · intro fuel
    rw [exportToPdf_code fuel _ _ 1000 3000 (by decide) (by decide) rfl]
    have hd : JsNum.div ((3000 : ℚ) * 170) (1000 : ℚ) = .num 510 := by
      simp [JsNum.div]; norm_num
    simp [pdfHeader, placeCodeImage, hd, placements, placementsFrom, pageCount,
      List.filter_cons, Call.isAddPage]
  · rw [placeRenderedImage_sample 3000 (le_refl _)]
    simp [pageCount, List.filter_cons, Call.isAddPage]

/-- C16. A rendered-markup export whose `html2canvas` on the temporary iframe fails: the
`finally` removes the iframe and the `catch` reports the error; the code block is not
rasterised and nothing is saved. When reading the preview frame fails instead, the export
does fall back to the code block and saves the PDF. -/
theorem failed_render_capture_has_no_fallback :
    (∀ fuel : ℕ,
      exportToPdf fuel ⟨asciiLower, asciiUpper, "1/2/2025", some (500, 1500), false,
          some (1000, 400)⟩
        ⟨"<b>hi</b>", "pasted-html.html", .str "html", some "blob:preview", "pdf",
          "HTML Document", ""⟩ = some
      [.setLoading true, .newJsPDF,
       .pdfSetProperties "HTML Document" "Generated by codeToDoc" "HTML Document" "codeToDoc",
       .appendTempIframe 500 1500, .html2canvas .tempIframeBody, .removeTempIframe,
       .consoleError "Error exporting to PDF:",
       .setNotification "Error exporting to PDF" "error", .setLoading false]) ∧
    (∀ fuel : ℕ,
      (exportToPdf fuel ⟨asciiLower, asciiUpper, "1/2/2025", none, false, some (1000, 400)⟩
        ⟨"<b>hi</b>", "pasted-html.html", .str "html", some "blob:preview", "pdf",
          "HTML Document", ""⟩).map
      (fun calls => calls.filter (fun c => c.isRasterize || c.isSave)) = some
      [.html2canvas .codeRef, .pdfSave "HTML Document.pdf"]) := by
  constructor
  · intro fuel
    simp [exportToPdf, exportToPdfTry, wantsIframe, exportTitle]
  · intro fuel
    simp [exportToPdf, exportToPdfTry, wantsIframe, exportTitle, pdfHeader, placeCodeImage,
      List.filter_cons, Call.isRasterize, Call.isSave]

theorem pageLoop_calls (pageHeight imgWidth : ℚ) (H : JsNum) :
    ∀ (fuel : ℕ) (hl : JsNum) (page : ℕ) (calls : List Call),
      pageLoop pageHeight imgWidth H fuel hl page = some calls →
      ∀ c ∈ calls, c.isHeaderDrawing = false ∧ c.isSave = false ∧ c.isRasterize = false := by
  intro fuel
  induction fuel with
  | zero =>
    intro hl page calls h c hc
    by_cases hg : hl.gt 0 = true
    · simp [pageLoop, hg] at h
    · simp [pageLoop, hg] at h
      subst h
      simp at hc
  | succ f ih =>
    intro hl page calls h c hc
    by_cases hg : hl.gt 0 = true
    · simp only [pageLoop, hg, if_true, Option.map_eq_some'] at h
      obtain ⟨rest, hrest, rfl⟩ := h
      simp only [List.mem_cons] at hc
      rcases hc with rfl | rfl | hc
      · exact ⟨rfl, rfl, rfl⟩
      · exact ⟨rfl, rfl, rfl⟩
      · exact ih _ _ _ hrest c hc
    · simp [pageLoop, hg] at h
      subst h
      simp at hc

theorem placeRenderedImage_calls (fuel w h : ℕ) (calls : List Call)
    (hcalls : placeRenderedImage fuel w h = some calls) :
    ∀ c ∈ calls, c.isHeaderDrawing = false ∧ c.isSave = false ∧ c.isRasterize = false := by
  unfold placeRenderedImage at hcalls
  simp only at hcalls
  split at hcalls
  · simp only [Option.map_eq_some'] at hcalls
    obtain ⟨rest, hrest, rfl⟩ := hcalls
    intro c hc
    simp only [List.mem_cons] at hc
    rcases hc with rfl | hc
    · exact ⟨rfl, rfl, rfl⟩
    · exact pageLoop_calls _ _ _ _ _ _ _ hrest c hc
  · simp only [Option.some.injEq] at hcalls
    subst hcalls
    intro c hc
    simp at hc
    subst hc
    exact ⟨rfl, rfl, rfl⟩

theorem pdfAuthor_ne_empty (authorName : String) :
    (if authorName ≠ "" then authorName else "Generated by codeToDoc") ≠ "" := by
  by_cases h : authorName = ""
  · simp [h]
  · simp [h]

theorem pdfHeader_eq (env : Env) (st : AppState) (title author : String) (ha : author ≠ "") :
    pdfHeader env st title author =
      [.pdfSetFontSize 20, .pdfText title 20 20, .pdfSetFontSize 12,
       .pdfText ("Author: " ++ author) 20 30, .pdfSetFontSize 10,
       .pdfText ("Generated on: " ++ env.date) 20 40,
       .pdfText ("Language: " ++ st.language.toStr) 20 45, .pdfLine 20 50 190 50] := by
  simp [pdfHeader, ha]

/-- C15. With a non-empty raw text: for a code capture the export draws the header block,
namely the title at (20, 20), the author line at (20, 30), the date at (20, 40), the language
at (20, 45) and the rule from (20, 50) to (190, 50), these being all the text and rules drawn,
and the document has one page; for a rendered-markup capture no text and no rule is drawn,
and the export returns once the bound on the loop is at least the canvas height. -/
theorem header_iff_code_capture (fuel : ℕ) (env : Env) (st : AppState)
    (hs : st.fileContent ≠ "") :
    ((wantsIframe st && env.iframeBody.isSome) = false →
      ∃ calls, exportToPdf fuel env st = some calls ∧
        calls.filter Call.isHeaderDrawing =
          [.pdfText (exportTitle st) 20 20,
           .pdfText ("Author: " ++
             (if st.authorName ≠ "" then st.authorName else "Generated by codeToDoc")) 20 30,
           .pdfText ("Generated on: " ++ env.date) 20 40,
           .pdfText ("Language: " ++ st.language.toStr) 20 45,
           .pdfLine 20 50 190 50] ∧
        pageCount calls = 1) ∧
    ((wantsIframe st && env.iframeBody.isSome) = true →
      (∀ calls, exportToPdf fuel env st = some calls →
        calls.filter Call.isHeaderDrawing = []) ∧
      (∀ fullWidth fullHeight : ℕ, env.iframeBody = some (fullWidth, fullHeight) →
        0 < fullWidth → fullHeight * 2 ≤ fuel → (exportToPdf fuel env st).isSome = true)) := by
  constructor
  · intro hcode
    have hbody : (if wantsIframe st = true then env.iframeBody else none) = none := by
      by_cases hw : wantsIframe st = true
      · simp only [hw, Bool.true_and] at hcode
        simp only [hw, if_true]
        cases hb : env.iframeBody with
        | none => rfl
        | some b => simp [hb] at hcode
      · simp [hw]
    cases hc : env.codeCanvas with
    | none =>
      refine ⟨_, by simp only [exportToPdf, exportToPdfTry, hs, hbody, hc, if_false,
        Option.map_some']; rfl, ?_, ?_⟩
      · rw [pdfHeader_eq _ _ _ _ (pdfAuthor_ne_empty st.authorName)]
        by_cases ha : (wantsIframe st && env.iframeBody.isNone) = true <;>
          simp [ha, List.filter_cons,
            List.filter_append, Call.isHeaderDrawing]
      · rw [pdfHeader_eq _ _ _ _ (pdfAuthor_ne_empty st.authorName)]
        by_cases ha : (wantsIframe st && env.iframeBody.isNone) = true <;>
          simp [ha, pageCount,
            List.filter_cons, List.filter_append, Call.isAddPage]
    | some wh =>
      obtain ⟨w, h⟩ := wh
      refine ⟨_, by simp only [exportToPdf, exportToPdfTry, hs, hbody, hc, if_false,
        Option.map_some']; rfl, ?_, ?_⟩
      · rw [pdfHeader_eq _ _ _ _ (pdfAuthor_ne_empty st.authorName)]
        by_cases ha : (wantsIframe st && env.iframeBody.isNone) = true <;>
          simp [ha, placeCodeImage,
            List.filter_cons, List.filter_append, Call.isHeaderDrawing]
      · rw [pdfHeader_eq _ _ _ _ (pdfAuthor_ne_empty st.authorName)]
        by_cases ha : (wantsIframe st && env.iframeBody.isNone) = true <;>
          simp [ha, placeCodeImage,
            pageCount, List.filter_cons, List.filter_append, Call.isAddPage]
  · intro hhtml
    have hw : wantsIframe st = true := by
      cases h : wantsIframe st
      · simp [h] at hhtml
      · rfl
    obtain ⟨body, hb⟩ : ∃ body, env.iframeBody = some body := by
      cases h : env.iframeBody with
      | none => simp [h] at hhtml
      | some b => exact ⟨b, rfl⟩
    obtain ⟨fw, fh⟩ := body
    constructor
    · intro calls hcalls
      by_cases hok : env.renderCaptureOk = true
      · rw [exportToPdf_rendered fuel env st fw fh hs hw hb hok] at hcalls
        simp only [Option.map_eq_some'] at hcalls
        obtain ⟨images, himg, rfl⟩ := hcalls
        have hclean := placeRenderedImage_calls _ _ _ _ himg
        have hfil : images.filter Call.isHeaderDrawing = [] := by
          rw [List.filter_eq_nil_iff]
          intro c hc
          simp [(hclean c hc).1]
        simp [List.filter_append, List.filter_cons, Call.isHeaderDrawing, hfil]
      · simp [exportToPdf, exportToPdfTry, hs, hw, hb, hok] at hcalls
        subst hcalls
        simp [List.filter_cons, Call.isHeaderDrawing]
    · intro fullWidth fullHeight hb2 hpos hfuel
      rw [hb] at hb2
      cases hb2
      by_cases hok : env.renderCaptureOk = true
      · rw [exportToPdf_rendered fuel env st fw fh hs hw hb hok]
        obtain ⟨m, hm, _⟩ := placeRenderedImage_eq (fw * 2) (fh * 2) (by omega)
        rw [hm fuel hfuel]
        rfl
      · simp [exportToPdf, exportToPdfTry, hs, hw, hb, hok]

/-- C15, at a code capture of the raw text `x = 1`. -/
theorem header_iff_code_capture_witness :
    ("x = 1" : String) ≠ "" ∧
    ∃ calls, exportToPdf 0 sampleEnv ⟨"x = 1", "a.py", .str "python", none, "pdf", "a", ""⟩ =
        some calls ∧
      calls.filter Call.isHeaderDrawing =
        [.pdfText "a" 20 20, .pdfText "Author: Generated by codeToDoc" 20 30,
         .pdfText "Generated on: 1/2/2025" 20 40, .pdfText "Language: python" 20 45,
         .pdfLine 20 50 190 50] ∧
      pageCount calls = 1 := by
  refine ⟨by decide, ?_⟩
  obtain ⟨calls, h1, h2, h3⟩ := (header_iff_code_capture 0 sampleEnv
    ⟨"x = 1", "a.py", .str "python", none, "pdf", "a", ""⟩ (by decide)).1 (by decide)
  refine ⟨calls, h1, ?_, h3⟩
  rw [h2]
  decide

/-! ## Margins, coverage and termination of the page loop -/

theorem loopStates_ne_nil (pageHeight : ℚ) :
    ∀ (fuel : ℕ) (hl : JsNum) (page : ℕ) (sts : List (JsNum × ℕ)),
      loopStates pageHeight fuel hl page = some sts → sts ≠ [] := by
  intro fuel
  cases fuel with
  | zero =>
    intro hl page sts h
    by_cases hg : hl.gt 0 = true
    · simp [loopStates, hg] at h
    · simp [loopStates, hg] at h
      subst h
      simp
  | succ f =>
    intro hl page sts h
    by_cases hg : hl.gt 0 = true
    · simp only [loopStates, hg, if_true, Option.map_eq_some'] at h
      obtain ⟨rest, _, rfl⟩ := h
      simp
    · simp [loopStates, hg] at h
      subst h
      simp

/-- The calls of the page loop are those of its recorded states: one `addPage` and one
`addImage` for each state but the last. -/
theorem pageLoop_eq_loopStates (pageHeight imgWidth : ℚ) (H : JsNum) :
    ∀ (fuel : ℕ) (hl : JsNum) (page : ℕ),
      pageLoop pageHeight imgWidth H fuel hl page =
        (loopStates pageHeight fuel hl page).map (fun sts =>
          sts.dropLast.flatMap (fun s =>
            [.pdfAddPage, .pdfAddImage 20 (10 - pageHeight * s.2) imgWidth H])) := by
  intro fuel
  induction fuel with
  | zero =>
    intro hl page
    by_cases hg : hl.gt 0 = true <;> simp [pageLoop, loopStates, hg]
  | succ f ih =>
    intro hl page
    by_cases hg : hl.gt 0 = true
    · simp only [pageLoop, loopStates, hg, if_true, ih]
      cases hrec : loopStates pageHeight f (hl.sub pageHeight) (page + 1) with
      | none => rfl
      | some rest =>
        have hne := loopStates_ne_nil pageHeight f _ _ rest hrec
        obtain ⟨s, rest', rfl⟩ : ∃ s rest', rest = s :: rest' := by
          cases rest with
          | nil => exact absurd rfl hne
          | cons s rest' => exact ⟨s, rest', rfl⟩
        simp [List.dropLast, List.flatMap_cons]
    · simp [pageLoop, loopStates, hg]

theorem loopStates_eq (m : ℕ) :
    ∀ (fuel : ℕ) (q : ℚ) (page : ℕ), m ≤ fuel → q ≤ 277 * m → 277 * (m : ℚ) < q + 277 →
      loopStates 277 fuel (.num q) page = some
        ((List.range (m + 1)).map (fun i : ℕ => (JsNum.num (q - 277 * (i : ℚ)), page + i))) := by
  induction m with
  | zero =>
    intro fuel q page _ h1 _
    have hq : ¬ (0 : ℚ) < q := by
      simp only [Nat.cast_zero, mul_zero] at h1
      exact not_lt.mpr h1
    cases fuel <;> simp [loopStates, JsNum.gt, hq, List.range_succ]
  | succ m ih =>
    intro fuel q page hf h1 h2
    have hm : (0 : ℚ) ≤ m := Nat.cast_nonneg m
    push_cast at h1 h2
    have hq : (0 : ℚ) < q := by linarith
    obtain ⟨f, rfl⟩ : ∃ f, fuel = f + 1 := ⟨fuel - 1, by omega⟩
    have hrec := ih f (q - 277) (page + 1) (by omega) (by linarith) (by linarith)
    rw [List.range_succ_eq_map]
    simp only [loopStates, JsNum.gt, JsNum.sub, hq, decide_True, if_true, hrec,
      Option.map_some', List.map_cons, List.map_map]
    congr 1
    refine congrArg₂ _ (by simp) (List.map_congr_left fun k _ => ?_)
    simp only [Function.comp, Prod.mk.injEq, JsNum.num.injEq]
    constructor
    · push_cast; ring
    · omega

/-- C18. A rendered-markup capture of 1000 x 3000 pixels, whose image is 510 mm high: the
first page has the image from y = 10 to y = 520, past 287 and down to the bottom of the page;
the second page has it from y = -267 to y = 243, over the top 10 mm of the page. Neither
placement keeps the margins. -/
theorem rendered_image_covers_margins :
    ∃ calls, placeRenderedImage 3000 1000 3000 = some calls ∧
      placements calls =
        [⟨0, 20, 10, 170, .num 510⟩, ⟨1, 20, -267, 170, .num 510⟩] ∧
      ¬ WithinMargins ⟨0, 20, 10, 170, .num 510⟩ ∧
      ¬ WithinMargins ⟨1, 20, -267, 170, .num 510⟩ ∧
      ¬ ∀ p ∈ placements calls, WithinMargins p := by
  have h0 : ¬ WithinMargins ⟨0, 20, 10, 170, .num 510⟩ := by
    intro hp
    have := (hp.2.2 510 297 rfl (by norm_num) (le_refl _) (by norm_num) (by norm_num)).2
    norm_num at this
  have h1 : ¬ WithinMargins ⟨1, 20, -267, 170, .num 510⟩ := by
    intro hp
    have := (hp.2.2 510 0 rfl (le_refl _) (by norm_num) (by norm_num) (by norm_num)).1
    norm_num at this
  refine ⟨_, placeRenderedImage_sample 3000 (le_refl _), by simp [placements, placementsFrom],
    h0, h1, ?_⟩
  intro hall
  exact h1 (hall _ (by simp [placements, placementsFrom]))

/-- The margins that every rendered-markup document keeps, for a bitmap of positive width:
every placement spans 20 mm to 190 mm horizontally; the image starts at 10 mm on the first
page and ends at or above 287 mm on the last page; when `imgHeight <= 277`, the single-page
case, the one placement keeps all four margins. -/
theorem rendered_image_kept_margins (pixelWidth pixelHeight : ℕ) (hw : 0 < pixelWidth) :
    ∃ calls : List Call,
      (∀ fuel, pixelHeight ≤ fuel →
        placeRenderedImage fuel pixelWidth pixelHeight = some calls) ∧
      (∀ p ∈ placements calls, p.x = 20 ∧ p.x + p.width = 190) ∧
      ((pixelHeight : ℚ) * 170 / pixelWidth ≤ 277 →
        ∀ p ∈ placements calls, WithinMargins p) ∧
      (∀ p ∈ placements calls, p.pageIndex = 0 → p.y = 10) ∧
      (∀ p ∈ placements calls, p.pageIndex + 1 = pageCount calls →
        p.y + (pixelHeight : ℚ) * 170 / pixelWidth ≤ 287) := by
  obtain ⟨m, hcalls, hsmall, hbig⟩ := placeRenderedImage_eq pixelWidth pixelHeight hw
  have hh0 : (0 : ℚ) ≤ (pixelHeight : ℚ) * 170 / pixelWidth := by positivity
  set h : ℚ := (pixelHeight : ℚ) * 170 / pixelWidth with hh
  have hpl := placements_page_splitting (.num h) m
  have hcount : pageCount (.pdfAddImage 20 10 170 (.num h) :: loopCalls (.num h) 1 m) =
      m + 1 := by
    simp [pageCount, List.filter_cons, Call.isAddPage, addPage_loopCalls]
    omega
  refine ⟨_, hcalls, ?_, ?_, ?_, ?_⟩
  · intro p hp
    rw [hpl] at hp
    simp only [List.mem_map, List.mem_range] at hp
    obtain ⟨k, _, rfl⟩ := hp
    exact ⟨rfl, by norm_num⟩
  · intro hle p hp
    rw [hpl, hsmall hle] at hp
    simp only [List.mem_map, List.mem_range] at hp
    obtain ⟨k, hk, rfl⟩ := hp
    have hk0 : k = 0 := by omega
    subst hk0
    refine ⟨rfl, by norm_num, ?_⟩
    intro h' y hh' _ _ hy1 hy2
    simp only [JsNum.num.injEq] at hh'
    subst hh'
    simp only [Nat.cast_zero, mul_zero, sub_zero] at hy1 hy2
    constructor <;> linarith
  · intro p hp hp0
    rw [hpl] at hp
    simp only [List.mem_map, List.mem_range] at hp
    obtain ⟨k, _, rfl⟩ := hp
    simp only at hp0
    subst hp0
    simp
  · intro p hp hlast
    rw [hcount] at hlast
    rw [hpl] at hp
    simp only [List.mem_map, List.mem_range] at hp
    obtain ⟨k, _, rfl⟩ := hp
    simp only at hlast
    have hkm : k = m := by omega
    subst hkm
    simp only
    by_cases hgt : 277 < h
    · have := (hbig hgt).1
      linarith
    · have hm0 := hsmall (not_lt.mp hgt)
      subst hm0
      have := not_lt.mp hgt
      simp only [Nat.cast_zero, mul_zero, sub_zero]
      linarith

/-- C19. For a bitmap of positive width captured from rendered markup with
`imgHeight > 277`, every vertical position `y` of the image, `0 <= y <= imgHeight`, is drawn
by one of the placements, the one of some page `k`, at the page coordinate `10 - 277 * k + y`,
which lies between 10 and 287. -/
theorem every_image_row_is_on_a_page (pixelWidth pixelHeight : ℕ) (hw : 0 < pixelWidth)
    (hgt : 277 < (pixelHeight : ℚ) * 170 / pixelWidth) (y : ℚ) (hy0 : 0 ≤ y)
    (hy1 : y ≤ (pixelHeight : ℚ) * 170 / pixelWidth) :
    ∃ calls : List Call,
      (∀ fuel, pixelHeight ≤ fuel →
        placeRenderedImage fuel pixelWidth pixelHeight = some calls) ∧
      ∃ p ∈ placements calls, p.y = 10 - 277 * (p.pageIndex : ℚ) ∧
        p.height = .num ((pixelHeight : ℚ) * 170 / pixelWidth) ∧
        10 ≤ p.y + y ∧ p.y + y ≤ 287 := by
  obtain ⟨m, hcalls, _, hbig⟩ := placeRenderedImage_eq pixelWidth pixelHeight hw
  set h : ℚ := (pixelHeight : ℚ) * 170 / pixelWidth with hh
  obtain ⟨hb1, hb2⟩ := hbig hgt
  have hpl := placements_page_splitting (.num h) m
  refine ⟨_, hcalls, ?_⟩
  rw [hpl]
  by_cases hk : ⌊y / 277⌋₊ ≤ m
  · refine ⟨⟨⌊y / 277⌋₊, 20, 10 - 277 * ((⌊y / 277⌋₊ : ℕ) : ℚ), 170, .num h⟩, ?_, rfl, rfl, ?_, ?_⟩
    · simp only [List.mem_map, List.mem_range]
      exact ⟨⌊y / 277⌋₊, by omega, rfl⟩
    · have := Nat.floor_le (div_nonneg hy0 (by norm_num : (0 : ℚ) ≤ 277))
      rw [le_div_iff₀ (by norm_num)] at this
      simp only
      linarith
    · have := Nat.lt_floor_add_one (y / 277)
      rw [div_lt_iff₀ (by norm_num)] at this
      simp only
      linarith
  · have hlt : m + 1 ≤ ⌊y / 277⌋₊ := by omega
    have h1 : ((m + 1 : ℕ) : ℚ) ≤ y / 277 := (Nat.le_floor_iff
      (div_nonneg hy0 (by norm_num : (0 : ℚ) ≤ 277))).mp hlt
    rw [le_div_iff₀ (by norm_num)] at h1
    push_cast at h1
    refine ⟨⟨m, 20, 10 - 277 * (m : ℚ), 170, .num h⟩, ?_, rfl, rfl, ?_, ?_⟩
    · simp only [List.mem_map, List.mem_range]
      exact ⟨m, by omega, rfl⟩
    · simp only
      linarith
    · simp only
      linarith

/-- C19, at the 1000 x 3000 bitmap and the image position y = 300. -/
theorem every_image_row_is_on_a_page_witness :
    0 < 1000 ∧ ∃ calls : List Call,
      placeRenderedImage 3000 1000 3000 = some calls ∧
      ∃ p ∈ placements calls, 10 ≤ p.y + 300 ∧ p.y + 300 ≤ 287 := by
  obtain ⟨calls, h1, p, hp, _, _, h4, h5⟩ := every_image_row_is_on_a_page 1000 3000
    (by decide) (by norm_num) 300 (by norm_num) (by norm_num)
  exact ⟨by decide, calls, h1 3000 (le_refl _), p, hp, h4, h5⟩

/-- C20. For a bitmap of positive width, with `n` the least positive integer such that
`277 * n >= imgHeight`: the page splitting returns once the bound on the iterations is at
least `pixelHeight`, and the loop body runs `n - 1` times, once per added page; when the loop
is reached (`imgHeight > 277`), the values of `heightLeft` at the successive tests of its
condition are `imgHeight - 277`, `imgHeight - 2 * 277`, ..., `imgHeight - n * 277`, each 277
below the one before, and the last, the value on exit, lies in `(-277, 0]`. -/
theorem page_loop_terminates (pixelWidth pixelHeight : ℕ) (hw : 0 < pixelWidth) :
    ∃ (n : ℕ) (calls : List Call),
      0 < n ∧ (pixelHeight : ℚ) * 170 / pixelWidth ≤ 277 * n ∧
      (∀ k : ℕ, 0 < k → (pixelHeight : ℚ) * 170 / pixelWidth ≤ 277 * k → n ≤ k) ∧
      (∀ fuel, pixelHeight ≤ fuel →
        placeRenderedImage fuel pixelWidth pixelHeight = some calls) ∧
      (calls.filter Call.isAddPage).length = n - 1 ∧
      (277 < (pixelHeight : ℚ) * 170 / pixelWidth →
        (∀ fuel, pixelHeight ≤ fuel →
          loopStates 277 fuel (.num ((pixelHeight : ℚ) * 170 / pixelWidth - 277)) 1 = some
            ((List.range n).map (fun i : ℕ =>
              (JsNum.num ((pixelHeight : ℚ) * 170 / pixelWidth - 277 * ((i : ℚ) + 1)), i + 1)))) ∧
        -277 < (pixelHeight : ℚ) * 170 / pixelWidth - 277 * n ∧
        (pixelHeight : ℚ) * 170 / pixelWidth - 277 * n ≤ 0) ∧
      (∀ (fuel : ℕ) (H heightLeft : JsNum) (page : ℕ),
        pageLoop 277 170 H fuel heightLeft page =
          (loopStates 277 fuel heightLeft page).map (fun sts =>
            sts.dropLast.flatMap (fun s =>
              [.pdfAddPage, .pdfAddImage 20 (10 - 277 * s.2) 170 H]))) := by
  obtain ⟨m, hcalls, hsmall, hbig⟩ := placeRenderedImage_eq pixelWidth pixelHeight hw
  have hw1 : (1 : ℚ) ≤ pixelWidth := by exact_mod_cast hw
  have hle : (pixelHeight : ℚ) * 170 / pixelWidth ≤ pixelHeight * 170 := by
    apply div_le_self _ hw1
    positivity
  set h : ℚ := (pixelHeight : ℚ) * 170 / pixelWidth with hh
  have hm0 : (0 : ℚ) ≤ m := Nat.cast_nonneg m
  have hupper : h ≤ 277 * ((m + 1 : ℕ) : ℚ) := by
    push_cast
    by_cases hgt : 277 < h
    · exact (hbig hgt).1
    · have := hsmall (not_lt.mp hgt)
      subst this
      simp only [Nat.cast_zero, zero_add, mul_one]
      exact not_lt.mp hgt
  have hleast : ∀ k : ℕ, 0 < k → h ≤ 277 * k → m + 1 ≤ k := by
    intro k hk hkh
    by_cases hgt : 277 < h
    · have h2 := (hbig hgt).2
      have : (m : ℚ) < k := by linarith
      have : m < k := by exact_mod_cast this
      omega
    · have := hsmall (not_lt.mp hgt)
      omega
  refine ⟨m + 1, _, by omega, hupper, hleast, hcalls, ?_, ?_,
    fun fuel H heightLeft page => pageLoop_eq_loopStates 277 170 H fuel heightLeft page⟩
  · simp [List.filter_cons, Call.isAddPage, addPage_loopCalls]
  · intro hgt
    obtain ⟨hb1, hb2⟩ := hbig hgt
    refine ⟨?_, ?_, ?_⟩
    · intro fuel hfuel
      have hmf : m ≤ fuel := by
        have hph : (0 : ℚ) ≤ pixelHeight := Nat.cast_nonneg _
        have hlt : (m : ℚ) < (pixelHeight : ℚ) := by linarith
        have : m < pixelHeight := by exact_mod_cast hlt
        omega
      rw [loopStates_eq m fuel (h - 277) 1 hmf (by linarith) (by linarith)]
      refine congrArg some (List.map_congr_left fun i _ => ?_)
      simp only [Prod.mk.injEq, JsNum.num.injEq]
      exact ⟨by ring, by omega⟩
    · push_cast; linarith
    · push_cast; linarith

/-- C20, at the 1000 x 3000 bitmap. -/
theorem page_loop_terminates_witness :
    0 < 1000 ∧ ∃ (n : ℕ) (calls : List Call), 0 < n ∧
      placeRenderedImage 3000 1000 3000 = some calls ∧
      (calls.filter Call.isAddPage).length = n - 1 := by
  obtain ⟨n, calls, h1, _, _, h4, h5, _⟩ := page_loop_terminates 1000 3000 (by decide)
  exact ⟨by decide, n, calls, h1, h4 3000 (le_refl _), h5⟩

/-! ## The author paragraph -/

theorem not_infix_of_occursChars (p : List Char) :
    ∀ l : List Char, occursChars p l = false → ¬ p <:+: l := by
  intro l
  induction l with
  | nil =>
    intro h hin
    have hp : p = [] := List.infix_nil.mp hin
    subst hp
    simp [occursChars] at h
  | cons c cs ih =>
    intro h hin
    simp only [occursChars, Bool.or_eq_false_iff] at h
    rcases List.infix_cons_iff.mp hin with hpre | hinf
    · have := List.isPrefixOf_iff_prefix.mpr hpre
      rw [this] at h
      exact absurd h.1 (by decide)
    · exact ih h.2 hinf

theorem infix_of_sep {p a b : List Char} {d : Char} (hd : d ∉ p) (h : p <:+: a ++ d :: b) :
    p <:+: a ∨ p <:+: b := by
  obtain ⟨s, t, hst⟩ := h
  rcases List.append_eq_append_iff.mp hst with ⟨a', ha, _⟩ | ⟨c', hc, hd'⟩
  · -- `a = (s ++ p) ++ a'`
    exact Or.inl ⟨s, a', ha.symm⟩
  · -- `s ++ p = a ++ c'` and `d :: b = c' ++ t`
    cases c' with
    | nil =>
      simp only [List.append_nil] at hc
      exact Or.inl ⟨s, [], by simp [hc]⟩
    | cons x c'' =>
      simp only [List.cons_append, List.cons.injEq] at hd'
      obtain ⟨rfl, hb⟩ := hd'
      rcases List.append_eq_append_iff.mp hc with ⟨a', _, hp⟩ | ⟨c3, hs, hp⟩
      · exact absurd (by rw [hp]; simp) hd
      · cases c3 with
        | nil =>
          simp only [List.nil_append] at hp
          exact absurd (by rw [← hp]; simp) hd
        | cons y c4 =>
          simp only [List.cons_append, List.cons.injEq] at hp
          obtain ⟨_, hc4⟩ := hp
          exact Or.inr ⟨c4, t, by rw [hb, hc4]⟩

theorem not_mem_of_isDelimiter {p : List Char} (hp : ∀ c ∈ p, isDelimiter c = false)
    {d : Char} (hd : isDelimiter d = true) : d ∉ p := by
  intro hmem
  rw [hp d hmem] at hd
  exact absurd hd (by decide)

theorem clean_sandwich (p x lit v : List Char) (hp : ∀ c ∈ p, isDelimiter c = false)
    (hx : ¬ p <:+: x) (hlit : sealedLiteral p lit = true) (hv : ¬ p <:+: v) :
    ¬ p <:+: x ++ lit ++ v := by
  simp only [sealedLiteral, Bool.and_eq_true, Bool.not_eq_true'] at hlit
  obtain ⟨⟨hocc, hhead⟩, hlast⟩ := hlit
  have hclean := not_infix_of_occursChars p lit hocc
  -- the literal starts with a delimiter
  obtain ⟨d1, rest, hl1, hd1⟩ : ∃ d1 rest, lit = d1 :: rest ∧ isDelimiter d1 = true := by
    cases lit with
    | nil => simp at hhead
    | cons d1 rest => exact ⟨d1, rest, rfl, by simpa using hhead⟩
  -- the literal ends with a delimiter
  obtain ⟨init, d2, hl2, hd2⟩ : ∃ init d2, lit = init ++ [d2] ∧ isDelimiter d2 = true := by
    rcases List.eq_nil_or_concat lit with hnil | ⟨init, d2, hc⟩
    · rw [hnil] at hhead; simp at hhead
    · refine ⟨init, d2, by simpa using hc, ?_⟩
      rw [hc] at hlast
      simpa using hlast
  have hxl : ¬ p <:+: x ++ lit := by
    intro h
    rw [hl1] at h
    rcases infix_of_sep (not_mem_of_isDelimiter hp hd1) h with h' | h'
    · exact hx h'
    · exact hclean (hl1 ▸ List.IsInfix.trans h' (List.infix_cons (List.infix_refl rest)))
  intro h
  have hre : x ++ lit ++ v = (x ++ init) ++ d2 :: v := by rw [hl2]; simp
  rw [hre] at h
  rcases infix_of_sep (not_mem_of_isDelimiter hp hd2) h with h' | h'
  · apply hxl
    rw [hl2, ← List.append_assoc]
    exact List.IsInfix.trans h' ⟨[], [d2], by simp⟩
  · exact hv h'

theorem escCharSpec_of_ne {c : Char} (h1 : c ≠ '<') (h2 : c ≠ '>') : escCharSpec c = [c] := by
  simp [escCharSpec, h1, h2]

theorem prefix_of_prefix_esc (p : List Char) (hp : ∀ c ∈ p, c ≠ '&') :
    ∀ l : List Char, p <+: l.flatMap escCharSpec → p <+: l := by
  induction p with
  | nil => intro l _; exact List.nil_prefix
  | cons a p' ih =>
    intro l h
    have ha : a ≠ '&' := hp a (by simp)
    have hp' : ∀ c ∈ p', c ≠ '&' := fun c hc => hp c (by simp [hc])
    cases l with
    | nil => simp at h
    | cons c cs =>
      rw [List.flatMap_cons] at h
      by_cases h1 : c = '<'
      · subst h1
        have : escCharSpec '<' = ['&', 'l', 't', ';'] := by decide
        rw [this] at h
        simp only [List.cons_append, List.cons_prefix_cons] at h
        exact absurd h.1 ha
      · by_cases h2 : c = '>'
        · subst h2
          have : escCharSpec '>' = ['&', 'g', 't', ';'] := by decide
          rw [this] at h
          simp only [List.cons_append, List.cons_prefix_cons] at h
          exact absurd h.1 ha
        · rw [escCharSpec_of_ne h1 h2] at h
          simp only [List.singleton_append, List.cons_prefix_cons] at h
          exact List.cons_prefix_cons.mpr ⟨h.1, ih hp' cs h.2⟩

theorem infix_of_infix_esc (a : Char) (t : List Char) (hp : ∀ c ∈ a :: t, c ≠ '&')
    (hl : a ≠ 'l') (hg : a ≠ 'g') (ht : a ≠ 't') (hs : a ≠ ';') :
    ∀ l : List Char, a :: t <:+: l.flatMap escCharSpec → a :: t <:+: l := by
  have ha : a ≠ '&' := hp a (by simp)
  intro l
  induction l with
  | nil => intro h; simp at h
  | cons c cs ih =>
    intro h
    rw [List.flatMap_cons] at h
    have htail : a :: t <:+: cs.flatMap escCharSpec → a :: t <:+: c :: cs :=
      fun h' => List.IsInfix.trans (ih h') (List.infix_cons (List.infix_refl cs))
    by_cases h1 : c = '<'
    · subst h1
      have : escCharSpec '<' = ['&', 'l', 't', ';'] := by decide
      rw [this] at h
      simp only [List.cons_append, List.nil_append, List.infix_cons_iff,
        List.cons_prefix_cons] at h
      rcases h with h | h | h | h | h
      · exact absurd h.1 ha
      · exact absurd h.1 hl
      · exact absurd h.1 ht
      · exact absurd h.1 hs
      · exact htail h
    · by_cases h2 : c = '>'
      · subst h2
        have : escCharSpec '>' = ['&', 'g', 't', ';'] := by decide
        rw [this] at h
        simp only [List.cons_append, List.nil_append, List.infix_cons_iff,
          List.cons_prefix_cons] at h
        rcases h with h | h | h | h | h
        · exact absurd h.1 ha
        · exact absurd h.1 hg
        · exact absurd h.1 ht
        · exact absurd h.1 hs
        · exact htail h
      · rw [escCharSpec_of_ne h1 h2] at h
        simp only [List.singleton_append] at h
        rcases List.infix_cons_iff.mp h with h | h
        · have hpre := prefix_of_prefix_esc (a :: t) hp (c :: cs) (by
            rw [List.flatMap_cons, escCharSpec_of_ne h1 h2]
            exact h)
          exact hpre.isInfix
        · exact htail h

theorem escapeHtml_no_author (s : String) (h : ¬ Occurs "Author:" s) :
    ¬ Occurs "Author:" (escapeHtml s) := by
  rw [escapeHtml_eq_escSpec]
  intro hocc
  apply h
  exact infix_of_infix_esc 'A' "uthor:".data (by decide) (by decide) (by decide) (by decide)
    (by decide) s.data hocc

theorem authorPattern_delimiters : ∀ c ∈ "Author:".data, isDelimiter c = false := by decide

theorem htmlContent_no_author (title date language fileContent : String)
    (ht : ¬ Occurs "Author:" title) (hd : ¬ Occurs "Author:" date)
    (hl : ¬ Occurs "Author:" language) (hr : ¬ Occurs "Author:" fileContent) :
    ¬ Occurs "Author:" (htmlContent title "" date language fileContent) := by
  have he := escapeHtml_no_author fileContent hr
  have hnil : ¬ "Author:".data <:+: ([] : List Char) := by decide
  have s1 : sealedLiteral "Author:".data htmlPart1.data = true := by decide!
  have s2 : sealedLiteral "Author:".data htmlPart2.data = true := by decide!
  have s3 : sealedLiteral "Author:".data "</h1>\n                ".data = true := by decide!
  have s4 : sealedLiteral "Author:".data "\n                <p>Generated on: ".data = true := by
    decide!
  have s5 : sealedLiteral "Author:".data "</p>\n                <p>Language: ".data = true := by
    decide!
  have s6 : sealedLiteral "Author:".data htmlPart6.data = true := by decide!
  have s7 : sealedLiteral "Author:".data htmlPart7.data = true := by decide!
  have hp := authorPattern_delimiters
  unfold Occurs at *
  have ha : authorParagraph "" = "" := by decide
  simp only [htmlContent, ha, String.data_append]
  have c1 := clean_sandwich _ [] _ _ hp hnil s1 ht
  have c2 := clean_sandwich _ _ _ _ hp c1 s2 ht
  have c3 := clean_sandwich _ _ _ ("" : String).data hp c2 s3 hnil
  have c4 := clean_sandwich _ _ _ _ hp c3 s4 hd
  have c5 := clean_sandwich _ _ _ _ hp c4 s5 hl
  have c6 := clean_sandwich _ _ _ _ hp c5 s6 he
  have c7 := clean_sandwich _ _ _ [] hp c6 s7 hnil
  simpa only [List.nil_append, List.append_nil] using c7

theorem docContent_no_author (title date language fileContent : String)
    (ht : ¬ Occurs "Author:" title) (hd : ¬ Occurs "Author:" date)
    (hl : ¬ Occurs "Author:" language) (hr : ¬ Occurs "Author:" fileContent) :
    ¬ Occurs "Author:" (docContent title "" date language fileContent) := by
  have he := escapeHtml_no_author fileContent hr
  have hnil : ¬ "Author:".data <:+: ([] : List Char) := by decide
  have s1 : sealedLiteral "Author:".data docPart1.data = true := by decide!
  have s2 : sealedLiteral "Author:".data docPart2.data = true := by decide!
  have s3 : sealedLiteral "Author:".data "</h1>\n              ".data = true := by decide!
  have s4 : sealedLiteral "Author:".data "\n              <p>Generated on: ".data = true := by
    decide!
  have s5 : sealedLiteral "Author:".data "</p>\n              <p>Language: ".data = true := by
    decide!
  have s6 : sealedLiteral "Author:".data "</p>\n              <div class=\"code\">".data =
      true := by decide!
  have s7 : sealedLiteral "Author:".data docPart7.data = true := by decide!
  have hp := authorPattern_delimiters
  unfold Occurs at *
  have ha : authorParagraph "" = "" := by decide
  simp only [docContent, ha, String.data_append]
  have c1 := clean_sandwich _ [] _ _ hp hnil s1 ht
  have c2 := clean_sandwich _ _ _ _ hp c1 s2 ht
  have c3 := clean_sandwich _ _ _ ("" : String).data hp c2 s3 hnil
  have c4 := clean_sandwich _ _ _ _ hp c3 s4 hd
  have c5 := clean_sandwich _ _ _ _ hp c4 s5 hl
  have c6 := clean_sandwich _ _ _ _ hp c5 s6 he
  have c7 := clean_sandwich _ _ _ [] hp c6 s7 hnil
  simpa only [List.nil_append, List.append_nil] using c7

theorem htmlContent_author (title authorName date language fileContent : String)
    (ha : authorName ≠ "") :
    Occurs ("<p>Author: " ++ authorName ++ "</p>")
      (htmlContent title authorName date language fileContent) := by
  apply occurs_of_eq
    (htmlPart1 ++ title ++ htmlPart2 ++ title ++ "</h1>\n                ")
    ("\n                <p>Generated on: " ++ date ++
      "</p>\n                <p>Language: " ++ language ++
      htmlPart6 ++ escapeHtml fileContent ++ htmlPart7)
  simp only [htmlContent, authorParagraph, ha, ne_eq, not_false_eq_true, if_true,
    String.append_assoc]

theorem docContent_author (title authorName date language fileContent : String)
    (ha : authorName ≠ "") :
    Occurs ("<p>Author: " ++ authorName ++ "</p>")
      (docContent title authorName date language fileContent) := by
  apply occurs_of_eq
    (docPart1 ++ title ++ docPart2 ++ title ++ "</h1>\n              ")
    ("\n              <p>Generated on: " ++ date ++
      "</p>\n              <p>Language: " ++ language ++
      "</p>\n              <div class=\"code\">" ++ escapeHtml fileContent ++ docPart7)
  simp only [docContent, authorParagraph, ha, ne_eq, not_false_eq_true, if_true,
    String.append_assoc]

/-- C13, as stated, fails for the title `<p>Author: </p>` with an empty author name: the
HTML document contains the text of the author paragraph, in its `<title>`, although the
author name is empty. -/
theorem author_paragraph_text_in_title :
    Occurs ("<p>Author: " ++ "" ++ "</p>")
      (htmlContent "<p>Author: </p>" "" "1/2/2025" "html" "<b>hi</b>") ∧
    ¬ (("" : String) ≠ "") := by
  refine ⟨?_, by decide⟩
  apply occurs_of_eq htmlPart1
    (htmlPart2 ++ "<p>Author: </p>" ++ "</h1>\n                " ++ authorParagraph "" ++
      "\n                <p>Generated on: " ++ "1/2/2025" ++
      "</p>\n                <p>Language: " ++ "html" ++
      htmlPart6 ++ escapeHtml "<b>hi</b>" ++ htmlPart7)
  have : ("<p>Author: " ++ "" ++ "</p>" : String) = "<p>Author: </p>" := by decide
  rw [this]
  simp only [htmlContent, String.append_assoc]

/-- C13, amended. With a non-empty raw text and the format `html` or `docx`, the export saves
one document; when the author name is non-empty the document contains `<p>Author: `, the
author name, `</p>`; when the author name is empty and neither the title, the date, the
language tag nor the raw text contains `Author:`, the text `Author:` occurs nowhere in the
document; in both cases the escaped raw text stands in the code block. -/
theorem author_paragraph_iff_author (env : Env) (st : AppState) (hs : st.fileContent ≠ "")
    (hf : st.exportFormat = "html" ∨ st.exportFormat = "docx") :
    ∃ content mimeType name,
      (exportToOtherFormat env st).filter Call.isSave = [.saveAs content mimeType name] ∧
      (st.authorName ≠ "" →
        Occurs ("<p>Author: " ++ st.authorName ++ "</p>") content) ∧
      (st.authorName = "" → ¬ Occurs "Author:" (exportTitle st) →
        ¬ Occurs "Author:" env.date → ¬ Occurs "Author:" st.language.toStr →
        ¬ Occurs "Author:" st.fileContent → ¬ Occurs "Author:" content) ∧
      (st.exportFormat = "html" →
        Occurs ("<pre><code>" ++ escapeHtml st.fileContent ++ "</code></pre>") content) ∧
      (st.exportFormat = "docx" →
        Occurs ("<div class=\"code\">" ++ escapeHtml st.fileContent ++ "</div>") content) := by
  rcases hf with hf | hf
  · refine ⟨htmlContent (exportTitle st) st.authorName env.date st.language.toStr
      st.fileContent, "text/html;charset=utf-8", exportTitle st ++ ".html", ?_, ?_, ?_, ?_, ?_⟩
    · rw [exportToOtherFormat_html env st hs hf]; rfl
    · exact htmlContent_author _ _ _ _ _
    · intro ha h1 h2 h3 h4
      rw [ha]
      exact htmlContent_no_author _ _ _ _ h1 h2 h3 h4
    · exact fun _ => htmlContent_occurs _ _ _ _ _
    · intro hf2
      rw [hf] at hf2
      exact absurd hf2 (by decide)
  · refine ⟨docContent (exportTitle st) st.authorName env.date st.language.toStr
      st.fileContent, "application/vnd.ms-word;charset=utf-8", exportTitle st ++ ".docx",
      ?_, ?_, ?_, ?_, ?_⟩
    · rw [exportToOtherFormat_docx env st hs hf]; rfl
    · exact docContent_author _ _ _ _ _
    · intro ha h1 h2 h3 h4
      rw [ha]
      exact docContent_no_author _ _ _ _ h1 h2 h3 h4
    · intro hf2
      rw [hf] at hf2
      exact absurd hf2 (by decide)
    · exact fun _ => docContent_occurs _ _ _ _ _

/-- C13, amended, at the raw text `<b>hi</b>` with an empty author name. -/
theorem author_paragraph_iff_author_witness :
    ("<b>hi</b>" : String) ≠ "" ∧ ∃ content mimeType name,
      (exportToOtherFormat sampleEnv
        ⟨"<b>hi</b>", "pasted-html.html", .str "html", none, "html", "HTML Document",
          ""⟩).filter Call.isSave = [.saveAs content mimeType name] ∧
      ¬ Occurs "Author:" content ∧
      Occurs ("<pre><code>" ++ "&lt;b&gt;hi&lt;/b&gt;" ++ "</code></pre>") content := by
  obtain ⟨content, mimeType, name, h1, _, h3, h4, _⟩ := author_paragraph_iff_author sampleEnv
    ⟨"<b>hi</b>", "pasted-html.html", .str "html", none, "html", "HTML Document", ""⟩
    (by decide) (Or.inl rfl)
  refine ⟨by decide, content, mimeType, name, h1, h3 rfl ?_ ?_ ?_ ?_, ?_⟩
  · exact not_infix_of_occursChars _ _ (by decide)
  · exact not_infix_of_occursChars _ _ (by decide)
  · exact not_infix_of_occursChars _ _ (by decide)
  · exact not_infix_of_occursChars _ _ (by decide)
  · have he : escapeHtml "<b>hi</b>" = "&lt;b&gt;hi&lt;/b&gt;" := by decide
    rw [← he]
    exact h4 rfl

/-! ## The decoding of the escaped text -/

theorem unescChars_cons_of_ne (c : Char) (cs : List Char) (h : c ≠ '&') :
    unescChars (c :: cs) = c :: unescChars cs :=
  unescChars.eq_3 c cs (fun _ hc _ => h hc) (fun _ hc _ => h hc)

theorem unescChars_amp (cs : List Char) (h1 : ¬ "lt;".data <+: cs) (h2 : ¬ "gt;".data <+: cs) :
    unescChars ('&' :: cs) = '&' :: unescChars cs :=
  unescChars.eq_3 '&' cs
    (fun r _ hcs => h1 ⟨r, by rw [hcs]; rfl⟩)
    (fun r _ hcs => h2 ⟨r, by rw [hcs]; rfl⟩)

theorem unescChars_esc :
    ∀ l : List Char, ¬ "&lt;".data <:+: l → ¬ "&gt;".data <:+: l →
      unescChars (l.flatMap escCharSpec) = l := by
  intro l
  induction l with
  | nil => intro _ _; rfl
  | cons c cs ih =>
    intro h1 h2
    have h1' : ¬ "&lt;".data <:+: cs := fun h =>
      h1 (List.IsInfix.trans h (List.infix_cons (List.infix_refl cs)))
    have h2' : ¬ "&gt;".data <:+: cs := fun h =>
      h2 (List.IsInfix.trans h (List.infix_cons (List.infix_refl cs)))
    have hrec := ih h1' h2'
    rw [List.flatMap_cons]
    by_cases hlt : c = '<'
    · subst hlt
      have : escCharSpec '<' = ['&', 'l', 't', ';'] := by decide
      rw [this]
      show unescChars ('&' :: 'l' :: 't' :: ';' :: cs.flatMap escCharSpec) = '<' :: cs
      rw [unescChars.eq_1, hrec]
    · by_cases hgt : c = '>'
      · subst hgt
        have : escCharSpec '>' = ['&', 'g', 't', ';'] := by decide
        rw [this]
        show unescChars ('&' :: 'g' :: 't' :: ';' :: cs.flatMap escCharSpec) = '>' :: cs
        rw [unescChars.eq_2, hrec]
      · rw [escCharSpec_of_ne hlt hgt]
        simp only [List.singleton_append]
        by_cases hamp : c = '&'
        · subst hamp
          rw [unescChars_amp, hrec]
          · intro hpre
            have := prefix_of_prefix_esc "lt;".data (by decide) cs hpre
            exact h1 (List.IsPrefix.isInfix (List.cons_prefix_cons.mpr ⟨rfl, this⟩))
          · intro hpre
            have := prefix_of_prefix_esc "gt;".data (by decide) cs hpre
            exact h2 (List.IsPrefix.isInfix (List.cons_prefix_cons.mpr ⟨rfl, this⟩))
        · rw [unescChars_cons_of_ne c _ hamp, hrec]

/-- C17, as stated, fails for the raw text `&lt;`: escaping leaves it unchanged, decoding
turns it into `<`, and the different raw texts `&lt;` and `<` have the same escaped text. -/
theorem escaping_is_not_invertible :
    unescSpec (escapeHtml "&lt;") ≠ "&lt;" ∧
    (("&lt;" : String) ≠ "<" ∧ escapeHtml "&lt;" = escapeHtml "<") := by
  decide

/-- C17, amended. For a raw text that contains neither `&lt;` nor `&gt;`, decoding the
escaped text gives back the raw text, and no other such raw text has the same escaped
text. -/
theorem escaping_round_trip (s : String) (h1 : ¬ Occurs "&lt;" s) (h2 : ¬ Occurs "&gt;" s) :
    unescSpec (escapeHtml s) = s ∧
    ∀ t : String, ¬ Occurs "&lt;" t → ¬ Occurs "&gt;" t →
      escapeHtml s = escapeHtml t → s = t := by
  have key : ∀ u : String, ¬ Occurs "&lt;" u → ¬ Occurs "&gt;" u →
      unescSpec (escapeHtml u) = u := by
    intro u hu1 hu2
    rw [escapeHtml_eq_escSpec]
    unfold unescSpec escSpec
    exact congrArg String.mk (unescChars_esc u.data hu1 hu2)
  refine ⟨key s h1 h2, fun t ht1 ht2 heq => ?_⟩
  rw [← key s h1 h2, ← key t ht1 ht2, heq]

/-- C17, amended, at the raw text `<script>`. -/
theorem escaping_round_trip_witness :
    ¬ Occurs "&lt;" "<script>" ∧ ¬ Occurs "&gt;" "<script>" ∧
    unescSpec (escapeHtml "<script>") = "<script>" :=
  ⟨not_infix_of_occursChars _ _ (by decide), not_infix_of_occursChars _ _ (by decide),
    (escaping_round_trip "<script>" (not_infix_of_occursChars _ _ (by decide))
      (not_infix_of_occursChars _ _ (by decide))).1⟩

/-! ## What is copied verbatim, and the algebra of the escaping -/

theorem infix_skip {p b : List Char} (a : List Char) (h : p <:+: b) : p <:+: a ++ b := by
  obtain ⟨s, t, h⟩ := h
  exact ⟨a ++ s, t, by simp [← h]⟩

theorem infix_between {a b m1 m2 : List Char} (v y : List Char) (h1 : m1 <:+ a)
    (h2 : m2 <+: b) : m1 ++ (v ++ m2) <:+: a ++ (v ++ (b ++ y)) := by
  obtain ⟨a', rfl⟩ := h1
  obtain ⟨b', rfl⟩ := h2
  exact ⟨a', b' ++ y, by simp⟩

theorem htmlContent_verbatim (title authorName date language fileContent : String) :
    Occurs ("<title>" ++ title ++ "</title>")
      (htmlContent title authorName date language fileContent) ∧
    Occurs ("<h1>" ++ title ++ "</h1>")
      (htmlContent title authorName date language fileContent) ∧
    Occurs ("<p>Language: " ++ language ++ "</p>")
      (htmlContent title authorName date language fileContent) := by
  have e1 : "<title>".data <:+ htmlPart1.data := List.isSuffixOf_iff_suffix.mp (by decide!)
  have b2 : "</title>".data <+: htmlPart2.data := List.isPrefixOf_iff_prefix.mp (by decide!)
  have e2 : "<h1>".data <:+ htmlPart2.data := List.isSuffixOf_iff_suffix.mp (by decide!)
  have b3 : "</h1>".data <+: "</h1>\n                ".data :=
    List.isPrefixOf_iff_prefix.mp (by decide!)
  have e5 : "<p>Language: ".data <:+ "</p>\n                <p>Language: ".data :=
    List.isSuffixOf_iff_suffix.mp (by decide!)
  have b6 : "</p>".data <+: htmlPart6.data := List.isPrefixOf_iff_prefix.mp (by decide!)
  unfold Occurs
  simp only [htmlContent, String.data_append, List.append_assoc]
  refine ⟨?_, ?_, ?_⟩
  · exact infix_between _ _ e1 b2
  · exact infix_skip _ (infix_skip _ (infix_between _ _ e2 b3))
  · exact infix_skip _ (infix_skip _ (infix_skip _ (infix_skip _ (infix_skip _
      (infix_skip _ (infix_skip _ (infix_skip _ (infix_between _ _ e5 b6))))))))

theorem docContent_verbatim (title authorName date language fileContent : String) :
    Occurs ("<title>" ++ title ++ "</title>")
      (docContent title authorName date language fileContent) ∧
    Occurs ("<h1>" ++ title ++ "</h1>")
      (docContent title authorName date language fileContent) ∧
    Occurs ("<p>Language: " ++ language ++ "</p>")
      (docContent title authorName date language fileContent) := by
  have e1 : "<title>".data <:+ docPart1.data := List.isSuffixOf_iff_suffix.mp (by decide!)
  have b2 : "</title>".data <+: docPart2.data := List.isPrefixOf_iff_prefix.mp (by decide!)
  have e2 : "<h1>".data <:+ docPart2.data := List.isSuffixOf_iff_suffix.mp (by decide!)
  have b3 : "</h1>".data <+: "</h1>\n              ".data :=
    List.isPrefixOf_iff_prefix.mp (by decide!)
  have e5 : "<p>Language: ".data <:+ "</p>\n              <p>Language: ".data :=
    List.isSuffixOf_iff_suffix.mp (by decide!)
  have b6 : "</p>".data <+: "</p>\n              <div class=\"code\">".data :=
    List.isPrefixOf_iff_prefix.mp (by decide!)
  unfold Occurs
  simp only [docContent, String.data_append, List.append_assoc]
  refine ⟨?_, ?_, ?_⟩
  · exact infix_between _ _ e1 b2
  · exact infix_skip _ (infix_skip _ (infix_between _ _ e2 b3))
  · exact infix_skip _ (infix_skip _ (infix_skip _ (infix_skip _ (infix_skip _
      (infix_skip _ (infix_skip _ (infix_skip _ (infix_between _ _ e5 b6))))))))

theorem flatMap_escCharSpec_of_clean :
    ∀ l : List Char, (∀ x ∈ l, x ≠ '<' ∧ x ≠ '>') → l.flatMap escCharSpec = l := by
  intro l
  induction l with
  | nil => intro _; rfl
  | cons c cs ih =>
    intro h
    have hc := h c (by simp)
    rw [List.flatMap_cons, escCharSpec_of_ne hc.1 hc.2, ih (fun x hx => h x (by simp [hx]))]
    rfl

/-- C21. For every title, author name and language tag, the HTML document and the
Word-compatible document contain `<title>`, the title, `</title>`, then `<h1>`, the title,
`</h1>`, then `<p>Language: `, the language tag, `</p>`, and, when the author name is
non-empty, `<p>Author: `, the author name, `</p>`, each copied verbatim; for a non-empty raw
text these documents are the ones the export saves. -/
theorem metadata_is_copied_verbatim (title authorName date language fileContent : String) :
    (Occurs ("<title>" ++ title ++ "</title>")
        (htmlContent title authorName date language fileContent) ∧
      Occurs ("<h1>" ++ title ++ "</h1>")
        (htmlContent title authorName date language fileContent) ∧
      Occurs ("<p>Language: " ++ language ++ "</p>")
        (htmlContent title authorName date language fileContent) ∧
      (authorName ≠ "" → Occurs ("<p>Author: " ++ authorName ++ "</p>")
        (htmlContent title authorName date language fileContent))) ∧
    (Occurs ("<title>" ++ title ++ "</title>")
        (docContent title authorName date language fileContent) ∧
      Occurs ("<h1>" ++ title ++ "</h1>")
        (docContent title authorName date language fileContent) ∧
      Occurs ("<p>Language: " ++ language ++ "</p>")
        (docContent title authorName date language fileContent) ∧
      (authorName ≠ "" → Occurs ("<p>Author: " ++ authorName ++ "</p>")
        (docContent title authorName date language fileContent))) ∧
    (∀ (env : Env) (st : AppState), exportTitle st = title → st.authorName = authorName →
      env.date = date → st.language = .str language → st.fileContent = fileContent →
      fileContent ≠ "" →
      (st.exportFormat = "html" →
        (exportToOtherFormat env st).filter Call.isSave =
          [.saveAs (htmlContent title authorName date language fileContent)
            "text/html;charset=utf-8" (title ++ ".html")]) ∧
      (st.exportFormat = "docx" →
        (exportToOtherFormat env st).filter Call.isSave =
          [.saveAs (docContent title authorName date language fileContent)
            "application/vnd.ms-word;charset=utf-8" (title ++ ".docx")])) := by
  obtain ⟨h1, h2, h3⟩ := htmlContent_verbatim title authorName date language fileContent
  obtain ⟨d1, d2, d3⟩ := docContent_verbatim title authorName date language fileContent
  refine ⟨⟨h1, h2, h3, htmlContent_author _ _ _ _ _⟩,
    ⟨d1, d2, d3, docContent_author _ _ _ _ _⟩, ?_⟩
  intro env st ht ha hd hl hc hne
  subst ht ha hd hc
  have hls : st.language.toStr = language := by rw [hl]; rfl
  refine ⟨fun hf => ?_, fun hf => ?_⟩
  · rw [exportToOtherFormat_html env st hne hf, hls]; rfl
  · rw [exportToOtherFormat_docx env st hne hf, hls]; rfl

/-- C21, at the title `<script>`. -/
theorem metadata_is_copied_verbatim_witness :
    Occurs "<title><script></title>" (htmlContent "<script>" "" "1/2/2025" "html" "x") ∧
    Occurs "<h1><script></h1>" (docContent "<script>" "" "1/2/2025" "html" "x") ∧
    (exportToOtherFormat sampleEnv ⟨"x", "a.html", .str "html", none, "html", "<script>",
        ""⟩).filter Call.isSave =
      [.saveAs (htmlContent "<script>" "" "1/2/2025" "html" "x") "text/html;charset=utf-8"
        "<script>.html"] :=
  ⟨(metadata_is_copied_verbatim "<script>" "" "1/2/2025" "html" "x").1.1,
   (metadata_is_copied_verbatim "<script>" "" "1/2/2025" "html" "x").2.1.2.1,
   ((metadata_is_copied_verbatim "<script>" "" "1/2/2025" "html" "x").2.2 sampleEnv
      ⟨"x", "a.html", .str "html", none, "html", "<script>", ""⟩
      (by decide) rfl rfl rfl rfl (by decide)).1 rfl⟩

/-- C22. The escaping of the source, which replaces every `<` by `&lt;` and then every `>`
by `&gt;`, is idempotent and distributes over concatenation. -/
theorem escaping_idempotent_and_additive (s t : String) :
    escapeHtml (escapeHtml s) = escapeHtml s ∧
    escapeHtml (s ++ t) = escapeHtml s ++ escapeHtml t := by
  constructor
  · rw [escapeHtml_eq_escSpec (escapeHtml s), escapeHtml_eq_escSpec s]
    apply String.ext
    show (escSpec s).data.flatMap escCharSpec = (escSpec s).data
    apply flatMap_escCharSpec_of_clean
    intro x hx
    simp only [escSpec, List.mem_flatMap] at hx
    obtain ⟨c, _, hc⟩ := hx
    exact escCharSpec_clean c x hc
  · rw [escapeHtml_eq_escSpec, escapeHtml_eq_escSpec, escapeHtml_eq_escSpec, escSpec_append]

end CodeToDoc
